import Mathlib

/-!
Verification of the auto-tracking pipeline of the Stock-P-L backend
(`backend/app/services/auto_tracker.py`, `social_scraper.py`,
`sentiment_analyzer.py`, `backend/app/api/endpoints/auto_tracking.py`,
`influencers.py`) through a shallow embedding in Lean 4.

Modelling conventions:
* Dates are integers (days since an arbitrary epoch); timestamps are
  integers (seconds since the Unix epoch).
* Prices are rationals (the Python floats only flow through selection
  logic in the verified properties, never arithmetic that could round).
* The persistent store (DuckDB) is a list of rows plus a `failing` flag;
  `failing = true` models an unreachable/erroring store, matching the
  `try/except` structure of the Python code.
* `uuid.uuid4()` is modelled by caller-supplied fresh identifiers; the
  generated id never influences any verified property.
* External collaborators (market-data provider, classification oracle,
  hash function) are parameters, exactly as the spec treats them.
-/

namespace StockPL

/-! ## Dedup ledger (`scraped_posts` table, `auto_tracker.py`) -/

/-- One row of the `scraped_posts` table (`init_db.py` lines 265-281);
the table carries a unique index on `(influencer_id, content_hash)`. -/
structure ScrapedRow where
  id : String
  influencerId : String
  contentHash : String
  source : String
  sourceUrl : String
  originalContent : String
  isInvestment : Bool
  postType : String
  analyzedAt : Int
  deriving Repr, DecidableEq

/-- The ledger store: rows plus a flag modelling a failing backend. -/
structure LedgerStore where
  rows : List ScrapedRow
  failing : Bool
  deriving Repr, DecidableEq

/-- `INSERT ... ON CONFLICT (influencer_id, content_hash) DO NOTHING`:
insert-if-absent keyed by (influencer id, content hash).  A failing
store raises (modelled as `Except.error`). -/
def insertScraped (st : LedgerStore) (row : ScrapedRow) :
    Except String LedgerStore :=
  if st.failing then .error "store unreachable"
  else if st.rows.any fun r =>
      r.influencerId = row.influencerId && r.contentHash = row.contentHash then
    .ok st
  else
    .ok { st with rows := st.rows ++ [row] }

/-- A scraped post as produced by the scraper (dict in Python).
`contentHash` is optional because Substack posts carry none. -/
structure SPost where
  source : String
  author : String
  content : String
  contentHash : Option String
  url : String
  date : String
  datetime : Option Int
  partNum : Option Nat
  totalParts : Option Nat
  deriving Repr, DecidableEq

/-- `post.get("content_hash") or hashlib.md5(...)`: the effective content
hash of a post, given the ambient hash function. -/
def effHash (hashFn : String → String) (p : SPost) : String :=
  match p.contentHash with
  | some h => h
  | none => hashFn p.content

/-- The row built by `_record_scraped_post` (auto_tracker.py 183-201). -/
def mkScrapedRow (newId influencerId contentHash : String) (p : SPost)
    (isInvestment : Bool) (postType : String) (now : Int) : ScrapedRow :=
  { id := newId, influencerId := influencerId, contentHash := contentHash,
    source := p.source, sourceUrl := p.url,
    originalContent := p.content.take 1000,
    isInvestment := isInvestment, postType := postType,
    analyzedAt := now }

/-- `AutoTrackerService._record_scraped_post` (auto_tracker.py 179-203):
insert-if-absent, with the whole body wrapped in `try/except` that only
prints on failure.  Returns the (possibly unchanged) store and an
optional log line; it never propagates an error. -/
def recordScrapedPost (st : LedgerStore) (newId influencerId contentHash : String)
    (p : SPost) (isInvestment : Bool) (postType : String) (now : Int) :
    LedgerStore × Option String :=
  match insertScraped st
      (mkScrapedRow newId influencerId contentHash p isInvestment postType now) with
  | .ok st' => (st', none)
  | .error e => (st, some ("Failed to record scraped post: " ++ e))

/-- Reading the set of known hashes for an influencer
(`SELECT content_hash FROM scraped_posts WHERE influencer_id = ?`);
fails when the store is failing. -/
def seenHashes (st : LedgerStore) (influencerId : String) :
    Except String (List String) :=
  if st.failing then .error "store unreachable"
  else .ok ((st.rows.filter fun r => r.influencerId = influencerId).map
      fun r => r.contentHash)

/-- `AutoTrackerService._filter_already_analyzed` (auto_tracker.py
150-177): on success, set each post's content hash and keep those not
yet known; on any exception, return all posts unchanged. -/
def filterAlreadyAnalyzed (hashFn : String → String) (st : LedgerStore)
    (influencerId : String) (posts : List SPost) : List SPost :=
  match seenHashes st influencerId with
  | .error _ => posts
  | .ok known =>
      (posts.map fun p => { p with contentHash := some (effHash hashFn p) }).filter
        fun p => !known.contains (effHash hashFn p)

/-- Number of ledger rows with the given (influencer id, content hash) key. -/
def countKey (st : LedgerStore) (influencerId contentHash : String) : Nat :=
  (st.rows.filter fun r =>
    r.influencerId = influencerId && r.contentHash = contentHash).length

/-- The composite-key uniqueness invariant enforced by
`idx_scraped_posts_hash` (init_db.py 279-281). -/
def UniqueKeyed (st : LedgerStore) : Prop :=
  ∀ i h, countKey st i h ≤ 1

/-! ## Two-phase classification output (`sentiment_analyzer.py`) -/

/-- One extracted asset as returned by the oracle (a loosely-typed dict;
absent keys are `none`). -/
structure RawAsset where
  symbol : Option String
  category : Option String
  signal : Option String
  market : Option String
  note : Option String
  deriving Repr, DecidableEq

/-- `VALID_SIGNALS` (sentiment_analyzer.py line 17). -/
def validSignals : List String := ["BUY", "SELL", "HEDGE", "WATCH", "CLOSED"]

/-- Placeholder symbols that are discarded (sentiment_analyzer.py 227,
auto_tracker.py 83). -/
def badSymbols : List String := ["None", "N/A", "", "null"]

/-- The per-asset normalisation step of
`SentimentAnalyzerService.extract_assets` (sentiment_analyzer.py
223-237): drop placeholder symbols, uppercase the signal, coerce it
into the closed taxonomy (HOLD becomes WATCH, anything else unknown
becomes BUY). -/
def normalizeAsset (a : RawAsset) : Option RawAsset :=
  let sym := (a.symbol.getD "")
  if sym ≠ "" ∧ ¬ badSymbols.contains sym then
    let signal := (a.signal.getD "BUY").toUpper
    let signal :=
      if validSignals.contains signal then signal
      else if signal = "HOLD" then "WATCH"
      else "BUY"
    some { a with signal := some signal }
  else none

/-- The `valid_assets` filtering loop of `extract_assets`. -/
def filterValidAssets (assets : List RawAsset) : List RawAsset :=
  assets.filterMap normalizeAsset

/-- Modelled from the spec: §4.4 output normalisation, stated in the
spec's own words — the signal is remapped case-insensitively: a `HOLD`
signal becomes `WATCH`, a signal already in the closed taxonomy
{BUY, SELL, HEDGE, WATCH, CLOSED} is kept, any other value defaults to
`BUY`; assets whose symbol is empty, `None`, `N/A` or `null` (or absent)
are dropped.  Written independently of the source translation above, to
be compared with it. -/
def specNormalizeAsset (a : RawAsset) : Option RawAsset :=
  match a.symbol with
  | none => none
  | some s =>
      if s = "" ∨ s = "None" ∨ s = "N/A" ∨ s = "null" then none
      else
        let u := (a.signal.getD "BUY").toUpper
        let coerced :=
          if u = "HOLD" then "WATCH"
          else if u = "BUY" ∨ u = "SELL" ∨ u = "HEDGE" ∨ u = "WATCH" ∨ u = "CLOSED"
            then u
          else "BUY"
        some { a with signal := some coerced }

/-- Result of `analyze_post` as consumed by the tracker loop: either an
error entry, or a post type with extracted assets. -/
structure Analysis where
  error : Option String
  postType : String
  assets : List RawAsset
  confidence : Rat
  deriving Repr, DecidableEq

/-! ## The tracking loop, step 3-4 (`auto_tracker.py` 54-118) -/

/-- A pending review row (`pending_reviews` table). -/
structure ReviewRow where
  id : String
  influencerId : String
  source : String
  sourceUrl : String
  originalContent : String
  suggestedSymbol : Option String
  suggestedSignal : Option String
  suggestedTimeframe : Option String
  confidence : Rat
  status : String
  createdAt : Int
  reviewedAt : Option Int
  contentHash : Option String
  postDate : Option String
  deriving Repr, DecidableEq

/-- Mutable result counters of one tracking run
(`track_influencer`'s `results` dict). -/
structure TrackResults where
  postsAnalyzed : Nat
  postsSkippedIrrelevant : Nat
  recommendationsFound : Nat
  pendingReviewIds : List String
  errors : List String
  logs : List String
  deriving Repr, DecidableEq

/-- The row built by `_create_pending_review` (auto_tracker.py 230-253). -/
def mkPendingRow (newId influencerId source sourceUrl originalContent : String)
    (suggestedSymbol suggestedSignal : Option String)
    (confidence : Rat) (contentHash : Option String)
    (postDate : Option String) (now : Int) : ReviewRow :=
  { id := newId, influencerId := influencerId, source := source,
    sourceUrl := sourceUrl, originalContent := originalContent.take 1000,
    suggestedSymbol := suggestedSymbol,
    suggestedSignal := some (suggestedSignal.getD "HOLD"),
    suggestedTimeframe := some "MID", confidence := confidence,
    status := "PENDING", createdAt := now, reviewedAt := none,
    contentHash := contentHash, postDate := postDate }

/-- `AutoTrackerService._create_pending_review` (auto_tracker.py
208-259): inserts a PENDING review row; a failing store is caught and
yields `none`.  The review store reuses `LedgerStore.failing` to model
the same unreachable database. -/
def createPendingReview (st : LedgerStore) (reviews : List ReviewRow)
    (newId influencerId source sourceUrl originalContent : String)
    (suggestedSymbol suggestedSignal : Option String)
    (confidence : Rat) (contentHash : Option String)
    (postDate : Option String) (now : Int) :
    List ReviewRow × Option String :=
  if st.failing then (reviews, none)
  else
    (reviews ++ [mkPendingRow newId influencerId source sourceUrl
      originalContent suggestedSymbol suggestedSignal confidence contentHash
      postDate now], some newId)

/-- The per-asset pending-review creation loop (auto_tracker.py 81-114):
skip assets whose symbol is falsy or a placeholder; create one review
per surviving asset. -/
def createReviewsForAssets (st : LedgerStore) (reviews : List ReviewRow)
    (influencerId platform : String) (post : SPost) (contentHash : String)
    (confidence : Rat) (now : Int) (mkId : Nat → String) :
    List RawAsset → (List ReviewRow × List String × Nat)
  | [] => (reviews, [], 0)
  | a :: rest =>
      match a.symbol with
      | none => createReviewsForAssets st reviews influencerId platform post
          contentHash confidence now mkId rest
      | some sym =>
        if sym = "" ∨ badSymbols.contains sym then
          createReviewsForAssets st reviews influencerId platform post
            contentHash confidence now mkId rest
        else
          let (reviews', pendingId) := createPendingReview st reviews
            (mkId reviews.length) influencerId ("AUTO_" ++ platform.toUpper)
            post.url post.content a.symbol a.signal confidence
            (some contentHash) (some post.date) now
          let (reviews'', ids, found) := createReviewsForAssets st reviews'
            influencerId platform post contentHash confidence now mkId rest
          match pendingId with
          | some pid => (reviews'', pid :: ids, found + 1)
          | none => (reviews'', ids, found)

/-- Step 3 of `track_influencer` (auto_tracker.py 54-118): analyze each
new post sequentially; oracle errors and irrelevant posts are recorded
in the ledger and skipped; otherwise one pending review is created per
surviving asset.  Ledger-write failures are logged and never abort the
loop. -/
def analyzePosts (oracle : String → Analysis) (hashFn : String → String)
    (mkId : Nat → String) (influencerId platform : String) (now : Int) :
    LedgerStore → List ReviewRow → TrackResults → List SPost →
    LedgerStore × List ReviewRow × TrackResults
  | st, reviews, res, [] => (st, reviews, res)
  | st, reviews, res, post :: rest =>
      let contentHash := effHash hashFn post
      let analysis := oracle post.content
      let res := { res with postsAnalyzed := res.postsAnalyzed + 1 }
      match analysis.error with
      | some e =>
          let (st', log) := recordScrapedPost st (mkId st.rows.length)
            influencerId contentHash post false "error" now
          let res := { res with
            errors := res.errors ++ ["AI error: " ++ e],
            logs := res.logs ++ log.toList }
          analyzePosts oracle hashFn mkId influencerId platform now st' reviews res rest
      | none =>
        if analysis.postType = "irrelevant" ∨ analysis.postType = "lifestyle" ∨
            analysis.postType = "other" ∨ analysis.assets = [] then
          let (st', log) := recordScrapedPost st (mkId st.rows.length)
            influencerId contentHash post false analysis.postType now
          let res := { res with
            postsSkippedIrrelevant := res.postsSkippedIrrelevant + 1,
            logs := res.logs ++ log.toList }
          analyzePosts oracle hashFn mkId influencerId platform now st' reviews res rest
        else
          let (st', log) := recordScrapedPost st (mkId st.rows.length)
            influencerId contentHash post true analysis.postType now
          let (reviews', ids, found) := createReviewsForAssets st' reviews
            influencerId platform post contentHash analysis.confidence now mkId
            analysis.assets
          let res := { res with
            recommendationsFound := res.recommendationsFound + found,
            pendingReviewIds := res.pendingReviewIds ++ ids,
            logs := res.logs ++ log.toList }
          analyzePosts oracle hashFn mkId influencerId platform now st' reviews' res rest

/-! ## Dates -/

/-- Days since 1970-01-01 of a proleptic-Gregorian civil date
(the standard civil-from-days inverse algorithm, as used by Python's
`datetime.date.toordinal` up to the epoch offset). -/
def daysFromCivil (y m d : Int) : Int :=
  let y := if m ≤ 2 then y - 1 else y
  let era := (if 0 ≤ y then y else y - 399) / 400
  let yoe := y - era * 400
  let mp := (m + 9) % 12
  let doy := (153 * mp + 2) / 5 + d - 1
  let doe := yoe * 365 + yoe / 4 - yoe / 100 + doy
  era * 146097 + doe - 719468

/-- Splitting a character list at every occurrence of a separator
(the structural counterpart of Python's `str.split(sep)` for a
one-character separator). -/
def splitOnChar (c : Char) : List Char → List (List Char)
  | [] => [[]]
  | x :: xs =>
      if x = c then [] :: splitOnChar c xs
      else
        match splitOnChar c xs with
        | [] => [[x]]
        | w :: ws => (x :: w) :: ws

/-- Decimal value of a digit string. -/
def digitsToNat (l : List Char) : Nat :=
  l.foldl (fun acc c => acc * 10 + (c.toNat - 48)) 0

/-- `datetime.strptime(s, "%Y-%m-%d").date()` as a total function:
`none` models the `ValueError` raised on non-matching input.  (Exact
day-of-month/month validation is approximated by the usual 1..31 and
1..12 bounds; every value the pipeline produces is either a valid
ISO date prefix or a non-date string such as "Recent".) -/
def parseDateYMD (s : String) : Option Int :=
  match splitOnChar '-' s.toList with
  | [y, m, d] =>
      if y ≠ [] ∧ m ≠ [] ∧ d ≠ [] ∧ y.all Char.isDigit ∧
          m.all Char.isDigit ∧ d.all Char.isDigit then
        let yn : Int := digitsToNat y
        let mn : Int := digitsToNat m
        let dn : Int := digitsToNat d
        if 1 ≤ mn ∧ mn ≤ 12 ∧ 1 ≤ dn ∧ dn ≤ 31 then
          some (daysFromCivil yn mn dn)
        else none
      else none
  | _ => none

/-- Date extraction in `fetch_threads_posts` (social_scraper.py
170-182): the post date defaults to the literal string "Recent" and is
replaced by the `YYYY-MM-DD` part (everything before the first `T`) of
the `<time>` element's datetime attribute when one is present. -/
def threadsPostDate (timeAttr : Option String) : String :=
  match timeAttr with
  | some dt => String.mk (dt.toList.takeWhile (fun c => c ≠ 'T'))
  | none => "Recent"

/-- DuckDB's implicit VARCHAR → DATE cast, applied when a string is
bound to the DATE-typed `pending_reviews.post_date` column that
migration 002 adds (init_db.py 58-59): an ISO `YYYY-MM-DD` string
converts to the civil day it denotes, any other string (such as the
scraper's "Recent" placeholder) raises a conversion error, modelled as
`none`.  The accepted shape coincides with `%Y-%m-%d`, so the same
parser is used. -/
def duckdbCastDate (s : String) : Option Int := parseDateYMD s

/-- `AutoTrackerService._create_pending_review` (auto_tracker.py
208-259) refined with the DATE type of `pending_reviews.post_date`
(migration 002): the INSERT casts the bound post-date string to a DATE,
so a non-date string makes DuckDB raise a conversion error inside the
`try`; the `except` catches it and returns `none`, leaving the table
unchanged.  A `none` post date is stored as NULL, and a cast-accepted
ISO string as the DATE it denotes (kept here in its ISO rendering,
which is also what a later read of the DATE column denotes — a date
value, never an arbitrary string). -/
def createPendingReviewDB (st : LedgerStore) (reviews : List ReviewRow)
    (newId influencerId source sourceUrl originalContent : String)
    (suggestedSymbol suggestedSignal : Option String)
    (confidence : Rat) (contentHash : Option String)
    (postDate : Option String) (now : Int) :
    List ReviewRow × Option String :=
  if st.failing then (reviews, none)
  else
    match postDate with
    | none =>
        (reviews ++ [mkPendingRow newId influencerId source sourceUrl
          originalContent suggestedSymbol suggestedSignal confidence
          contentHash none now], some newId)
    | some d =>
        match duckdbCastDate d with
        | none => (reviews, none)
        | some _ =>
            (reviews ++ [mkPendingRow newId influencerId source sourceUrl
              originalContent suggestedSymbol suggestedSignal confidence
              contentHash (some d) now], some newId)

/-! ## Market data provider and price backfill -/

/-- One historical close returned by the provider (`date` in days). -/
structure PriceBar where
  date : Int
  close : Rat
  deriving Repr, DecidableEq

/-- The market-data provider interface (§6 of the spec):
`hist symbol start stop` models `get_historical_prices` (`none` models
a `None`/absent payload), `quote symbol` models
`get_quotes([symbol])[0].get("regularMarketPrice")`. -/
structure Provider where
  hist : String → Int → Int → Option (List PriceBar)
  quote : String → Option Rat

/-- The best-match selection loop of `_approve_review`
(auto_tracking.py 429-439) and `create_recommendations_batch`
(influencers.py 119-129): keep the bar whose date (in seconds) is
strictly closer to the target than every earlier bar. -/
def bestLoop (target : Int) : Option (PriceBar × Nat) → List PriceBar →
    Option (PriceBar × Nat)
  | acc, [] => acc
  | acc, p :: rest =>
      let diff := (p.date * 86400 - target * 86400).natAbs
      match acc with
      | none => bestLoop target (some (p, diff)) rest
      | some (b, d) =>
          if diff < d then bestLoop target (some (p, diff)) rest
          else bestLoop target (some (b, d)) rest

/-- `best_match` of the backfill loops. -/
def selectBest (target : Int) (prices : List PriceBar) : Option PriceBar :=
  (bestLoop target none prices).map (·.1)

/-- The prices list actually considered by the backfill: the provider's
response for the ±5-day window, with an absent payload treated as no
prices (`if hist_data and hist_data.get("prices")`). -/
def windowPrices (provider : Provider) (symbol : String) (recDate : Int) :
    List PriceBar :=
  (provider.hist symbol (recDate - 5) (recDate + 5)).getD []

/-- The entry-price auto-fetch of `_approve_review` (auto_tracking.py
420-451), reached when there is no explicit override and the symbol is
truthy: nearest close in the ±5-day window; if none, a live quote when
`(now - rec_date).days <= 3`; the live quote itself is dropped when
falsy (absent or 0). -/
def entryPriceBackfill (provider : Provider) (symbol : String)
    (recDate nowDay : Int) : Option Rat :=
  let prices := windowPrices provider symbol recDate
  let fromHist : Option Rat :=
    if prices.isEmpty then none
    else (selectBest recDate prices).map (·.close)
  match fromHist with
  | some p => some p
  | none =>
      if nowDay - recDate ≤ 3 then
        match provider.quote symbol with
        | some q => if q ≠ 0 then some q else none
        | none => none
      else none

/-- Entry-price resolution of the manual batch path
`create_recommendations_batch` (influencers.py 96-153), translated
faithfully: the backfill result is stored in the local `initial_price`,
which is never copied back into `entry_price` before the INSERT; when
no close is found `initial_price` is read before ever being assigned
(line 142), raising `UnboundLocalError`. -/
def batchEntryPrice (provider : Provider) (recEntry : Option Rat)
    (symbol : String) (recDate nowDay : Int) : Except String (Option Rat) :=
  if recEntry = none ∨ recEntry = some 0 then
    let prices := windowPrices provider symbol recDate
    let initialAssigned : Option Rat :=
      if prices.isEmpty then none
      else (selectBest recDate prices).map (·.close)
    match initialAssigned with
    | some _ => .ok recEntry
    | none => .error "UnboundLocalError: initial_price referenced before assignment"
  else .ok recEntry

/-! ## Pending-review state machine (`auto_tracking.py` endpoints) -/

/-- One `influencer_recommendations` row. -/
structure RecRow where
  id : String
  influencerId : String
  symbol : Option String
  signal : String
  timeframe : String
  recommendationDate : Int
  entryPrice : Option Rat
  targetPrice : Option Rat
  stopLoss : Option Rat
  expiryDate : Int
  source : Option String
  sourceUrl : Option String
  note : String
  status : String
  createdAt : Int
  deriving Repr, DecidableEq

/-- The review/recommendation portion of the database. -/
structure ReviewDB where
  reviews : List ReviewRow
  recs : List RecRow
  deriving Repr, DecidableEq

/-- `ApproveReviewRequest` (auto_tracking.py 37-45). -/
structure ApproveReq where
  symbol : Option String
  signal : Option String
  timeframe : Option String
  entryPrice : Option Rat
  targetPrice : Option Rat
  stopLoss : Option Rat
  note : Option String
  deriving Repr, DecidableEq

/-- `ApproveReviewRequest()` with every field defaulted. -/
def emptyApproveReq : ApproveReq :=
  { symbol := none, signal := none, timeframe := none, entryPrice := none,
    targetPrice := none, stopLoss := none, note := none }

/-- Python's `a or b` on optional strings (an empty string is falsy). -/
def pyOr (a b : Option String) : Option String :=
  match a with
  | some s => if s = "" then b else some s
  | none => b

/-- Python truthiness of an optional string. -/
def strTruthy : Option String → Bool
  | some s => s ≠ ""
  | none => false

/-- `TimeframeType(timeframe)`: enum validation; an unknown value
raises (modelled as `none`). -/
def parseTimeframe (s : String) : Option String :=
  if s = "SHORT" ∨ s = "MID" ∨ s = "LONG" then some s else none

/-- `calculate_expiry_date` (influencers.py 15-22). -/
def calculateExpiryDate (recDate : Int) (tf : String) : Int :=
  if tf = "SHORT" then recDate + 7
  else if tf = "MID" then recDate + 28
  else recDate + 90

/-- The recommendation-date resolution of `_approve_review`
(auto_tracking.py 400-408): use the stored post date when truthy
(raising on a non-date string), else the current processing date. -/
def resolveRecDate (postDate : Option String) (nowDay : Int) :
    Except String Int :=
  match postDate with
  | none => .ok nowDay
  | some s =>
      if s = "" then .ok nowDay
      else
        match parseDateYMD s with
        | some d => .ok d
        | none => .error ("time data " ++ s ++ " does not match format Y-m-d")

/-- `_approve_review` (auto_tracking.py 387-484): resolve date, symbol,
signal, timeframe, expiry and entry price, insert an ACTIVE
recommendation and mark the review APPROVED.  Every raise (date parse,
enum validation) happens before any mutation, so an error leaves the
database untouched by construction. -/
def approveReview (provider : Provider) (db : ReviewDB) (review : ReviewRow)
    (req : ApproveReq) (recId : String) (now : Int) :
    Except String (ReviewDB × String) := do
  let recDate ← resolveRecDate review.postDate now
  let symbol := pyOr req.symbol review.suggestedSymbol
  let signal := (pyOr (pyOr req.signal review.suggestedSignal) (some "BUY")).getD "BUY"
  let timeframe := (pyOr (pyOr req.timeframe review.suggestedTimeframe)
    (some "MID")).getD "MID"
  match parseTimeframe timeframe with
  | none => .error ("Invalid timeframe " ++ timeframe)
  | some tf =>
    let expiry := calculateExpiryDate recDate tf
    let entryPrice : Option Rat :=
      match req.entryPrice with
      | some p => some p
      | none =>
          if strTruthy symbol then
            entryPriceBackfill provider (symbol.getD "") recDate now
          else none
    let newRec : RecRow :=
      { id := recId, influencerId := review.influencerId, symbol := symbol,
        signal := signal, timeframe := tf, recommendationDate := recDate,
        entryPrice := entryPrice, targetPrice := req.targetPrice,
        stopLoss := req.stopLoss, expiryDate := expiry,
        source := some review.source, sourceUrl := some review.sourceUrl,
        note := (req.note.getD (review.originalContent.take 200)),
        status := "ACTIVE", createdAt := now }
    .ok ({ reviews := db.reviews.map fun r =>
             if r.id = review.id then
               { r with status := "APPROVED", reviewedAt := some now }
             else r,
           recs := db.recs ++ [newRec] }, recId)

/-- `approve_pending_review` endpoint (auto_tracking.py 270-297): the
review is looked up with `id = ? AND status = 'PENDING'`; a missing or
already-processed review yields 404 before any side effect. -/
def approvePendingReviewEndpoint (provider : Provider) (db : ReviewDB)
    (reviewId : String) (req : ApproveReq) (recId : String) (now : Int) :
    ReviewDB × Except String String :=
  match db.reviews.find? fun r => r.id = reviewId && r.status = "PENDING" with
  | none => (db, .error "404: Pending review not found or already processed")
  | some r =>
      match approveReview provider db r req recId now with
      | .ok (db', rid) => (db', .ok rid)
      | .error e => (db, .error e)

/-- `reject_pending_review` endpoint (auto_tracking.py 300-307): a
guarded UPDATE (`WHERE id = ? AND status = 'PENDING'`) followed by an
unconditional success response. -/
def rejectPendingReviewEndpoint (db : ReviewDB) (reviewId : String)
    (now : Int) : ReviewDB × String :=
  ({ db with reviews := db.reviews.map fun r =>
       if r.id = reviewId && r.status = "PENDING" then
         { r with status := "REJECTED", reviewedAt := some now }
       else r }, "rejected")

/-- `delete_pending_review` endpoint (auto_tracking.py 310-314):
unconditional DELETE by id. -/
def deletePendingReviewEndpoint (db : ReviewDB) (reviewId : String) :
    ReviewDB × String :=
  ({ db with reviews := db.reviews.filter fun r => r.id ≠ reviewId }, "deleted")

/-- Stable ascending sort by `created_at` (the `ORDER BY created_at` of
`approve_all_pending`). -/
def sortByCreatedAt (l : List ReviewRow) : List ReviewRow :=
  List.insertionSort (fun a b => a.createdAt ≤ b.createdAt) l

/-- `approve_all_pending` (auto_tracking.py 214-241): snapshot all
PENDING reviews oldest-first and approve each with empty overrides; a
per-item failure becomes a warning keyed by the suggested symbol. -/
def approveAllLoop (provider : Provider) (mkId : Nat → String) (now : Int) :
    ReviewDB → Nat → List String → List ReviewRow →
    ReviewDB × Nat × List String
  | db, approved, errs, [] => (db, approved, errs)
  | db, approved, errs, review :: rest =>
      match approveReview provider db review emptyApproveReq
          (mkId db.recs.length) now with
      | .ok (db', _) => approveAllLoop provider mkId now db' (approved + 1) errs rest
      | .error e =>
          approveAllLoop provider mkId now db approved
            (errs ++ [(pyOr review.suggestedSymbol (some "unknown")).getD "unknown"
              ++ ": " ++ e]) rest

/-- The `approve-all` endpoint. -/
def approveAllPending (provider : Provider) (db : ReviewDB)
    (mkId : Nat → String) (now : Int) : ReviewDB × Nat × List String :=
  approveAllLoop provider mkId now db 0 []
    (sortByCreatedAt (db.reviews.filter fun r => r.status = "PENDING"))

/-- `_auto_approve_pending` (auto_tracking.py 487-513): like
approve-all but filtered to `confidence >= threshold` (and without the
ORDER BY); failures are printed, not returned. -/
def autoApprovePending (provider : Provider) (db : ReviewDB)
    (mkId : Nat → String) (now : Int) (threshold : Rat) :
    ReviewDB × Nat × List String :=
  approveAllLoop provider mkId now db 0 []
    (db.reviews.filter fun r => r.status = "PENDING" && threshold ≤ r.confidence)

/-! ## Multi-part merge (`social_scraper.py _merge_multipart_posts`) -/

/-- A placeholder post (never observable: only used as the default of
`List.headD` on lists proved nonempty). -/
def dummyPost : SPost :=
  { source := "", author := "", content := "", contentHash := none,
    url := "", date := "", datetime := none, partNum := none,
    totalParts := none }

/-- Authors in first-appearance order (Python dict insertion order). -/
def firstOccur (l : List String) : List String :=
  l.foldl (fun acc a => if acc.contains a then acc else acc ++ [a]) []

/-- The 24-hour window check (social_scraper.py 361-367): constrain
only when both posts carry parsed timestamps. -/
def timeOk (last cand : SPost) : Bool :=
  match last.datetime, cand.datetime with
  | some a, some b => (b - a).natAbs ≤ 86400
  | _, _ => true

/-- Stable ascending sort by part number (`multipart_posts.sort`). -/
def sortByPartNum (l : List SPost) : List SPost :=
  List.insertionSort (fun a b => a.partNum.getD 0 ≤ b.partNum.getD 0) l

/-- The inner `for j, candidate` search (social_scraper.py 355-375):
first unused post with the expected part number passing the time
check. -/
def findNext (items : List (Nat × SPost)) (used : List Nat) (expected : Nat)
    (last : SPost) : Option (Nat × SPost) :=
  items.find? fun jc =>
    !used.contains jc.1 && jc.2.partNum == some expected && timeOk last jc.2

/-- The greedy `while True` extension loop; the fuel is the number of
posts, enough since every step claims a fresh index. -/
def extendCluster (items : List (Nat × SPost)) :
    Nat → List SPost → List Nat → Nat → SPost → List SPost × List Nat
  | 0, cluster, used, _, _ => (cluster, used)
  | fuel + 1, cluster, used, expected, last =>
      match findNext items used expected last with
      | some (j, cand) =>
          extendCluster items fuel (cluster ++ [cand]) (used ++ [j])
            (expected + 1) cand
      | none => (cluster, used)

/-- The outer `for i, p` loop (social_scraper.py 340-392): start a
cluster at each unused part-1 post, extend it greedily, then accept it
only when it has more than one member and is not shorter than the first
member's truthy declared total; otherwise release the members. -/
def clusterLoop (items : List (Nat × SPost)) :
    List (Nat × SPost) → List Nat → List (List SPost) → List SPost →
    List Nat × List (List SPost) × List SPost
  | [], used, clusters, reverted => (used, clusters, reverted)
  | (i, p) :: rest, used, clusters, reverted =>
      if used.contains i then clusterLoop items rest used clusters reverted
      else if p.partNum == some 1 then
        let (cluster, used') :=
          extendCluster items items.length [p] (used ++ [i]) 2 p
        let incomplete : Bool :=
          match p.totalParts with
          | some t => t != 0 && decide (cluster.length < t)
          | none => false
        if cluster.length > 1 && !incomplete then
          clusterLoop items rest used' (clusters ++ [cluster]) reverted
        else
          clusterLoop items rest used' clusters (reverted ++ cluster)
      else clusterLoop items rest used clusters reverted

/-- One author group (social_scraper.py 316-411): split off multipart
posts, sort them by part number, form clusters, merge the accepted
ones (concatenating contents with a blank line and recomputing the
hash from the merged content), and append everything in the source's
order: plain singles, released cluster members, unclaimed multiparts,
merged posts. -/
def mergeAuthorGroup (hash : String → String) (authorPosts : List SPost) :
    List SPost :=
  let multip := authorPosts.filter fun p => p.partNum.isSome
  let singles0 := authorPosts.filter fun p => !p.partNum.isSome
  let items := (sortByPartNum multip).enum
  let (used, clusters, reverted) := clusterLoop items items [] [] []
  let unclaimed := (items.filter fun ip => !used.contains ip.1).map (·.2)
  let merged := clusters.map fun c =>
    let mergedContent := String.intercalate "\n\n" (c.map (·.content))
    { c.headD dummyPost with
        content := mergedContent, contentHash := some (hash mergedContent) }
  singles0 ++ reverted ++ unclaimed ++ merged

/-- `get_original_order`: best timestamp, epoch 0 when absent. -/
def sortKey (p : SPost) : Int := p.datetime.getD 0

/-- The newest-first relation used by the final sort. -/
def newestFirst (a b : SPost) : Prop := sortKey b ≤ sortKey a

instance : DecidableRel newestFirst := fun a b =>
  inferInstanceAs (Decidable (sortKey b ≤ sortKey a))

instance : IsTotal SPost newestFirst :=
  ⟨fun a b => le_total (sortKey b) (sortKey a)⟩

instance : IsTrans SPost newestFirst :=
  ⟨fun _ _ _ h1 h2 => le_trans h2 h1⟩

/-- `_merge_multipart_posts` up to (and including) the final
newest-first sort, before the temporary fields are popped. -/
def mergeCore (hash : String → String) (posts : List SPost) : List SPost :=
  if posts.isEmpty then posts
  else
    List.insertionSort newestFirst
      ((firstOccur (posts.map (·.author))).map
        (fun a => mergeAuthorGroup hash (posts.filter fun p => p.author = a))).flatten

/-- Popping `part_num`, `total_parts` and `datetime` (social_scraper.py
422-426), modelled by clearing the fields. -/
def clearTmp (p : SPost) : SPost :=
  { p with partNum := none, totalParts := none, datetime := none }

/-- `_merge_multipart_posts` (social_scraper.py 286-428). -/
def mergeMultipartPosts (hash : String → String) (posts : List SPost) :
    List SPost :=
  (mergeCore hash posts).map clearTmp

/-! ## Concrete fixtures used by witnesses and counterexamples -/

/-- A fresh, healthy ledger store. -/
def emptyStore : LedgerStore := { rows := [], failing := false }

/-- An unreachable ledger store. -/
def failingStore : LedgerStore := { rows := [], failing := true }

/-- Zeroed counters of a tracking run. -/
def emptyResults : TrackResults :=
  { postsAnalyzed := 0, postsSkippedIrrelevant := 0,
    recommendationsFound := 0, pendingReviewIds := [], errors := [],
    logs := [] }

/-- An oracle that classifies everything as a relevant single pick with
no extractable assets. -/
def oracleNoAssets : String → Analysis := fun _ =>
  { error := none, postType := "single_pick", assets := [], confidence := 1 }

/-- A provider with no data at all. -/
def trivialProvider : Provider :=
  { hist := fun _ _ _ => none, quote := fun _ => none }

/-- The second-distance the backfill loops minimise. -/
def barDistSec (target : Int) (p : PriceBar) : Nat :=
  (p.date * 86400 - target * 86400).natAbs

/-- A provider with no historical closes but a live quote of 42. -/
def quoteOnlyProvider : Provider :=
  { hist := fun _ _ _ => some [], quote := fun _ => some 42 }

/-- A provider with two closes equidistant from day 7 and no quote. -/
def twoBarProvider : Provider :=
  { hist := fun _ _ _ => some [⟨8, 100⟩, ⟨6, 120⟩], quote := fun _ => none }

/-- A provider with exactly one close, at day 7 for 150. -/
def oneBarProvider : Provider :=
  { hist := fun _ _ _ => some [⟨7, 150⟩], quote := fun _ => none }

/-- A review that has already been approved. -/
def approvedReview : ReviewRow :=
  { id := "r1", influencerId := "i", source := "AUTO_THREADS",
    sourceUrl := "u", originalContent := "c", suggestedSymbol := some "NVDA",
    suggestedSignal := some "BUY", suggestedTimeframe := some "MID",
    confidence := 1, status := "APPROVED", createdAt := 0, reviewedAt := some 0,
    contentHash := none, postDate := none }

/-- A database whose only review is already approved. -/
def dbApproved : ReviewDB := { reviews := [approvedReview], recs := [] }

/-- A PENDING review with no stored post date. -/
def pendingReview : ReviewRow :=
  { id := "p1", influencerId := "i", source := "AUTO_THREADS",
    sourceUrl := "u", originalContent := "c", suggestedSymbol := some "NVDA",
    suggestedSignal := some "BUY", suggestedTimeframe := some "MID",
    confidence := 1, status := "PENDING", createdAt := 0, reviewedAt := none,
    contentHash := none, postDate := none }

/-- A database with one PENDING review. -/
def dbPending : ReviewDB := { reviews := [pendingReview], recs := [] }

/-- The recommendation created by approving `pendingReview` at time 5
against a dataless provider. -/
def approvedOutRec : RecRow :=
  { id := "rec1", influencerId := "i", symbol := some "NVDA",
    signal := "BUY", timeframe := "MID", recommendationDate := 5,
    entryPrice := none, targetPrice := none, stopLoss := none,
    expiryDate := 33, source := some "AUTO_THREADS", sourceUrl := some "u",
    note := "c", status := "ACTIVE", createdAt := 5 }

/-- The database after that approval. -/
def dbAfterApprove : ReviewDB :=
  { reviews := [{ pendingReview with status := "APPROVED", reviewedAt := some 5 }],
    recs := [approvedOutRec] }

/-- The merged post built from an accepted two-part cluster. -/
def mergedPair (hash : String → String) (p1 p2 : SPost) : SPost :=
  { p1 with
      content := p1.content ++ "\n\n" ++ p2.content,
      contentHash := some (hash (p1.content ++ "\n\n" ++ p2.content)) }

/-- A post with a pre-epoch timestamp. -/
def postOld : SPost :=
  { source := "Threads", author := "x", content := "old post text",
    contentHash := some "h1", url := "u", date := "1969-12-31",
    datetime := some (-100), partNum := none, totalParts := none }

/-- A post with no timestamp at all. -/
def postNoTs : SPost :=
  { source := "Threads", author := "x", content := "undated post text",
    contentHash := some "h2", url := "u", date := "Recent",
    datetime := none, partNum := none, totalParts := none }

/-- Part 1 of 2 of a three-part run (declared total 2). -/
def tri1 : SPost :=
  { source := "Threads", author := "x", content := "one",
    contentHash := some "c1", url := "u", date := "Recent",
    datetime := none, partNum := some 1, totalParts := some 2 }

/-- Part 2. -/
def tri2 : SPost :=
  { source := "Threads", author := "x", content := "two",
    contentHash := some "c2", url := "u", date := "Recent",
    datetime := none, partNum := some 2, totalParts := some 2 }

/-- Part 3 — one more part than `tri1` declares. -/
def tri3 : SPost :=
  { source := "Threads", author := "x", content := "three",
    contentHash := some "c3", url := "u", date := "Recent",
    datetime := none, partNum := some 3, totalParts := some 4 }

/-- The post that `_merge_multipart_posts` builds from the three-part
run above. -/
def mergedTri : SPost :=
  { tri1 with content := "one\n\ntwo\n\nthree", contentHash := some "H" }

/-! ## Threads post normalizer (`_clean_threads_post`)

The cleaning pipeline is a sequence of `re.sub` passes.  Each pass is
modelled as a left-to-right scanner over the character list: at every
position it tries the pattern's matcher; on a match it removes the
matched characters and continues after them (Python's non-overlapping
leftmost semantics), otherwise it keeps the character and advances.
Greedy `\s*`/`\d*`/`\d+` pieces become `dropWhile`/`takeWhile` runs —
for these concrete patterns the greedy match never needs backtracking
into a shorter run.  Case-insensitive matching compares lowercased text
characters against lowercase pattern literals.  `\s` and `\d` are the
ASCII classes (the scraped text is matched the same way). -/

/-- Lowercasing used by the `IGNORECASE` flag. -/
def lc (c : Char) : Char := c.toLower

/-- ASCII `\s`. -/
def isSpc (c : Char) : Bool :=
  c = ' ' ∨ c = '\t' ∨ c = '\n' ∨ c = '\r' ∨ c = '\x0b' ∨ c = '\x0c'

/-- ASCII `\d`. -/
def isDig (c : Char) : Bool := '0' ≤ c && c ≤ '9'

/-- Python `\w` (ASCII). -/
def isWordChar (c : Char) : Bool := c.isAlphanum || c = '_'

/-- Case-insensitive literal match: `stripCI tok s` returns the rest of
`s` after a lowercase literal `tok`, or `none`. -/
def stripCI : List Char → List Char → Option (List Char)
  | [], s => some s
  | _ :: _, [] => none
  | t :: ts, c :: cs => if lc c = t then stripCI ts cs else none

def audioTok : List Char := "audio is muted".toList
def translateTok : List Char := "translate".toList
def likeTok : List Char := "like".toList
def replyTok : List Char := "reply".toList
def repostTok : List Char := "repost".toList
def shareTok : List Char := "share".toList
def commentTok : List Char := "comment".toList
def editedTok : List Char := "edited".toList
def moreTok : List Char := "more".toList
def verifiedTok : List Char := "verified".toList
def followTok : List Char := "follow".toList

/-- Matcher for `tok\s*` (e.g. `Translate\s*`, `Verified\s*`). -/
def mTokSp (tok : List Char) (s : List Char) : Option (List Char) :=
  (stripCI tok s).map (fun r => r.dropWhile isSpc)

/-- Matcher for `tok\s*\d*` (the engagement-counter patterns
`Like\s*\d*`, `Reply\s*\d*`, `Repost\s*\d*`, `Share\s*\d*`,
`Comment\s*\d*`). -/
def mTokSpDig (tok : List Char) (s : List Char) : Option (List Char) :=
  (stripCI tok s).map (fun r => (r.dropWhile isSpc).dropWhile isDig)

/-- Matcher for `(Follow\s*)?{username}\s*`: try the optional group
first, fall back to the bare username (the regex engine's backtracking
order). -/
def mFollowUser (user : List Char) (s : List Char) : Option (List Char) :=
  match stripCI followTok s with
  | some r1 =>
      match stripCI user (r1.dropWhile isSpc) with
      | some r2 => some (r2.dropWhile isSpc)
      | none => (stripCI user s).map (fun r => r.dropWhile isSpc)
  | none => (stripCI user s).map (fun r => r.dropWhile isSpc)

def hdwm : List Char := ['h', 'd', 'w', 'm']

/-- Matcher for `\d{1,3}[hdwm]\s*(?:Edited\s*)?(?:More\s*)?`: one to
three digits (a longer digit run cannot match, since every shorter
attempt still faces a digit where `[hdwm]` is required), a unit letter,
then greedy optional `Edited`/`More` blocks. -/
def mRelTime (s : List Char) : Option (List Char) :=
  let k := (s.takeWhile isDig).length
  if 1 ≤ k ∧ k ≤ 3 then
    match s.drop k with
    | u :: rest =>
        if hdwm.contains (lc u) then
          let r1 := rest.dropWhile isSpc
          let r2 := match stripCI editedTok r1 with
            | some x => x.dropWhile isSpc
            | none => r1
          let r3 := match stripCI moreTok r2 with
            | some x => x.dropWhile isSpc
            | none => r2
          some r3
        else none
    | [] => none
  else none

/-- Matcher for `Edited\s*(?:More\s*)?`. -/
def mEditedMore (s : List Char) : Option (List Char) :=
  match stripCI editedTok s with
  | some r1 =>
      let r2 := r1.dropWhile isSpc
      some (match stripCI moreTok r2 with
        | some x => x.dropWhile isSpc
        | none => r2)
  | none => none

/-- Matcher for `(?<!\d)\d+\s*(?:/|of)\s*\d+(?!\d)`; `pv` records
whether the character before the current position is a digit (the
lookbehind).  Both `\d+` runs are maximal, which makes the trailing
`(?!\d)` automatic, and no shorter run can match since neither `\s*`
nor `/|of` matches a digit. -/
def mPartSlash (pv : Bool) (s : List Char) : Option (List Char) :=
  if pv then none
  else
    let k := (s.takeWhile isDig).length
    if 1 ≤ k then
      let r1 := (s.drop k).dropWhile isSpc
      let r2o : Option (List Char) :=
        match r1 with
        | '/' :: t => some t
        | _ => stripCI "of".toList r1
      match r2o with
      | some r2 =>
          let r3 := r2.dropWhile isSpc
          let m := (r3.takeWhile isDig).length
          if 1 ≤ m then some (r3.drop m) else none
      | none => none
    else none

/-- Matcher for `(?<!\w)(?:part|day)\s+\d+(?!\d)`; `pv` records whether
the previous character is a word character. -/
def mPartWord (pv : Bool) (s : List Char) : Option (List Char) :=
  if pv then none
  else
    let afterTok : Option (List Char) :=
      match stripCI "part".toList s with
      | some r => some r
      | none => stripCI "day".toList s
    match afterTok with
    | some r =>
        let sp := (r.takeWhile isSpc).length
        if 1 ≤ sp then
          let r2 := r.drop sp
          let m := (r2.takeWhile isDig).length
          if 1 ≤ m then some (r2.drop m) else none
        else none
    | none => none

/-- Fuel-indexed body of the `re.sub(pattern, '', text)` scanner (the
fuel makes the recursion structural; `scanS` supplies enough fuel). -/
def scanSF (M : List Char → Option (List Char)) : Nat → List Char → List Char
  | _, [] => []
  | 0, s => s
  | fuel + 1, c :: cs =>
      match M (c :: cs) with
      | some rest =>
          if rest.length < cs.length + 1 then scanSF M fuel rest
          else c :: scanSF M fuel cs
      | none => c :: scanSF M fuel cs

/-- The `re.sub(pattern, '', text)` scanner for a stateless matcher:
leftmost non-overlapping matches are removed, scanning resumes after
each match.  (Every matcher above consumes at least one character; the
guard only protects termination.) -/
def scanS (M : List Char → Option (List Char)) (s : List Char) : List Char :=
  scanSF M s.length s

/-- Fuel-indexed body of the lookbehind scanner. -/
def scanPF (M : Bool → List Char → Option (List Char)) (pb : Char → Bool) :
    Nat → Bool → List Char → List Char
  | _, _, [] => []
  | 0, _, s => s
  | fuel + 1, pv, c :: cs =>
      match M pv (c :: cs) with
      | some rest =>
          if rest.length < cs.length + 1 then
            scanPF M pb fuel
              (pb (((c :: cs).take (cs.length + 1 - rest.length)).getLastD c))
              rest
          else c :: scanPF M pb fuel (pb c) cs
      | none => c :: scanPF M pb fuel (pb c) cs

/-- The scanner for a matcher with a one-character lookbehind: `pv`
tracks the class of the previous character of the original string
(`pb`), which for these patterns may lie inside the previously removed
match. -/
def scanP (M : Bool → List Char → Option (List Char)) (pb : Char → Bool)
    (pv : Bool) (s : List Char) : List Char :=
  scanPF M pb s.length pv s

/-- `re.sub(r'^More\s*', '', text)` — anchored at the start only. -/
def subLeadingMore (s : List Char) : List Char :=
  match stripCI moreTok s with
  | some r => r.dropWhile isSpc
  | none => s

/-- `re.sub(r'\(\s*\d+\s*\)\s*$', '', text)` — the only possible match
is a suffix, located from the reversed string. -/
def subTrailingParen (s : List Char) : List Char :=
  let r1 := s.reverse.dropWhile isSpc
  match r1 with
  | ')' :: r2 =>
      let r3 := r2.dropWhile isSpc
      let d := (r3.takeWhile isDig).length
      if 1 ≤ d then
        match (r3.drop d).dropWhile isSpc with
        | '(' :: r5 => r5.reverse
        | _ => s
      else s
  | _ => s

/-- Fuel-indexed body of `text.split()`. -/
def wsWordsF : Nat → List Char → List (List Char)
  | _, [] => []
  | 0, _ => []
  | fuel + 1, c :: cs =>
      if isSpc c then wsWordsF fuel cs
      else
        (c :: cs.takeWhile (fun x => !isSpc x)) ::
          wsWordsF fuel (cs.drop (cs.takeWhile (fun x => !isSpc x)).length)

/-- `text.split()` — maximal runs of non-whitespace. -/
def wsWords (s : List Char) : List (List Char) :=
  wsWordsF s.length s

/-- `' '.join(words)`. -/
def joinWords : List (List Char) → List Char
  | [] => []
  | [w] => w
  | w :: ws => w ++ ' ' :: joinWords ws

/-- `' '.join(text.split())`. -/
def collapseWs (s : List Char) : List Char := joinWords (wsWords s)

/-- `str.strip()` (whitespace both ends). -/
def stripEnds (s : List Char) : List Char :=
  ((s.dropWhile isSpc).reverse.dropWhile isSpc).reverse

/-- `SocialScraperService._clean_threads_post` (social_scraper.py
229-284), canonical-text part.  The multi-part detection between the
second and third passes inspects but never modifies the text, so it
does not appear here.  The pass order follows the source exactly. -/
def cleanThreadsPost (text user : String) : String :=
  let userTok := user.toList.map lc
  let s1 := scanS (mTokSp audioTok) text.toList
  let s2 := scanS (mTokSp translateTok) s1
  let s3 := scanS (mFollowUser userTok) s2
  let s4 := scanS (mTokSp translateTok) s3
  let s5 := scanS (mTokSpDig likeTok) s4
  let s6 := scanS (mTokSpDig replyTok) s5
  let s7 := scanS (mTokSpDig repostTok) s6
  let s8 := scanS (mTokSpDig shareTok) s7
  let s9 := scanS (mTokSpDig commentTok) s8
  let s10 := scanS (mTokSp audioTok) s9
  let s11 := scanS mRelTime s10
  let s12 := scanS mEditedMore s11
  let s13 := subLeadingMore s12
  let s14 := scanS (mTokSp verifiedTok) s13
  let s15 := scanS (mTokSp followTok) s14
  let s16 := scanP mPartSlash isDig false s15
  let s17 := scanP mPartWord isWordChar false s16
  let s18 := subTrailingParen s17
  String.mk (stripEnds (collapseWs s18))

/-- The fingerprint of a post: `hashlib.md5` over the canonical text;
the hash itself is an external collaborator and stays a parameter. -/
def fingerprintOf (hash : String → String) (canonical : String) : String :=
  hash canonical

/-! ### A family of raw Threads renderings

`renderThreads` is a raw container text as the scraper sees it: the
username, a relative timestamp (digits plus a unit from `[hdwm]`), a
`More` affordance, the post body, the translate affordance, and the
four engagement counters.  Two renderings of the same logical post
differ exactly in the timestamp and the counter values. -/
def renderThreads (user : String) (ts : List Char) (u : Char) (body : String)
    (likes replies reposts shares : List Char) : String :=
  user ++ " " ++ String.mk ts ++ String.mk [u] ++ " More " ++ body ++
  " Translate Like " ++ String.mk likes ++ " Reply " ++ String.mk replies ++
  " Repost " ++ String.mk reposts ++ " Share " ++ String.mk shares

/-- `tok` occurs (case-insensitively) somewhere inside `s`. -/
def occursCI (tok s : List Char) : Bool :=
  (List.range (s.length + 1)).any fun p => (stripCI tok (s.drop p)).isSome

/-- A nonempty all-digit counter value. -/
def digitRun (d : List Char) : Bool := decide (d ≠ []) && d.all isDig

/-- A well-formed relative-timestamp digit part (1-3 digits). -/
def tsOK (ts : List Char) : Bool :=
  decide (1 ≤ ts.length) && decide (ts.length ≤ 3) && ts.all isDig

/-- A well-formed relative-timestamp unit. -/
def unitOK (u : Char) : Bool := hdwm.contains (lc u)

/-- Characters a body may contain for the invariance theorem. -/
def alphaSpace (c : Char) : Bool := c.isAlpha || c = ' '

/-- Side conditions on the username and body under which the rendering
family is well-behaved: the username is nonempty lowercase-alpha, the
body is letters and spaces without leading whitespace, neither contains
(case-insensitively) the UI literals the normalizer strips while they
are in scope, and the username does not collide with the template's
fixed chrome (the collision the counterexample exploits) nor with the
timestamp unit letters. -/
def c2ok (user body : List Char) : Prop :=
  (user ≠ [] ∧ user.all (fun c => c.isAlpha && lc c = c) = true ∧
    body.all alphaSpace = true ∧ body.dropWhile isSpc = body) ∧
  (occursCI audioTok (user ++ [' ']) = false ∧
    occursCI translateTok (user ++ [' ']) = false ∧
    occursCI followTok (user ++ [' ']) = false) ∧
  (occursCI audioTok body = false ∧
    occursCI translateTok body = false ∧
    occursCI followTok body = false ∧
    occursCI likeTok body = false ∧
    occursCI replyTok body = false ∧
    occursCI repostTok body = false ∧
    occursCI shareTok body = false ∧
    occursCI commentTok body = false ∧
    occursCI editedTok body = false ∧
    occursCI moreTok body = false ∧
    occursCI verifiedTok body = false) ∧
  (occursCI user (" More ".toList ++ body ++ " Like ".toList) = false ∧
    occursCI user " Reply ".toList = false ∧
    occursCI user " Repost ".toList = false ∧
    occursCI user " Share ".toList = false ∧
    user ≠ ['h'] ∧ user ≠ ['d'] ∧ user ≠ ['w'] ∧ user ≠ ['m'])

instance (user body : List Char) : Decidable (c2ok user body) := by
  unfold c2ok
  infer_instance

/-! ### Text-normalizer proof predicates -/

/-- `tok` matches (case-insensitively) at no position of `s`. -/
def noOcc (tok s : List Char) : Prop :=
  ∀ p, stripCI tok (s.drop p) = none

/-- `tok` matches at no position strictly inside `x`, even allowing the
match to continue into the continuation `y`. -/
def noPreMatch (tok x y : List Char) : Prop :=
  ∀ p, p < x.length → stripCI tok (x.drop p ++ y) = none

/-- Every proper suffix of `tok` fails against `g`. -/
def crossDeadB (tok g : List Char) : Bool :=
  (List.range tok.length).all fun k =>
    decide (k = 0) || (stripCI (tok.drop k) g).isNone

/-- Every position of `x` kills a `tok` match inside `x` itself,
whatever follows `x`. -/
def preDeadB (tok x : List Char) : Bool :=
  (List.range x.length).all fun p =>
    if tok.length ≤ x.length - p then (stripCI tok (x.drop p)).isNone
    else !(decide (stripCI (tok.take (x.length - p)) (x.drop p) = some []))

/-- `s` contains no ASCII digit. -/
def noDigits (s : List Char) : Bool := s.all fun c => !isDig c

/-- Like `crossDeadB`, with suffixes longer than `g` checked by their
`g`-length prefix. -/
def crossDeadB2 (tok g : List Char) : Bool :=
  (List.range tok.length).all fun k =>
    decide (k = 0) ||
      (if tok.length - k ≤ g.length then (stripCI (tok.drop k) g).isNone
       else !(decide (stripCI ((tok.drop k).take g.length) g = some [])))

/-! # Theorems -/

/-! ## Ledger idempotence (C1) and failure degradation (C9) -/

theorem countKey_append_match (rows : List ScrapedRow) (f : Bool)
    (row : ScrapedRow) (i h : String)
    (hi : row.influencerId = i) (hh : row.contentHash = h) :
    countKey { rows := rows ++ [row], failing := f } i h =
      countKey { rows := rows, failing := f } i h + 1 := by
  simp [countKey, List.filter_append, hi, hh]

theorem countKey_append_other (rows : List ScrapedRow) (f : Bool)
    (row : ScrapedRow) (i h : String)
    (hne : ¬(row.influencerId = i ∧ row.contentHash = h)) :
    countKey { rows := rows ++ [row], failing := f } i h =
      countKey { rows := rows, failing := f } i h := by
  have : (row.influencerId = i ∧ row.contentHash = h) = False := by
    simp [hne]
  simp [countKey, List.filter_append]
  intro h1 h2
  exact absurd ⟨h1, h2⟩ hne

theorem countKey_eq_zero_of_not_any (st : LedgerStore) (i h : String)
    (hany : st.rows.any (fun r => r.influencerId = i && r.contentHash = h) = false) :
    countKey st i h = 0 := by
  simp only [countKey, List.length_eq_zero, List.filter_eq_nil_iff]
  intro r hr
  have := List.any_eq_false.mp hany r hr
  simpa using this

theorem countKey_pos_of_any (st : LedgerStore) (i h : String)
    (hany : st.rows.any (fun r => r.influencerId = i && r.contentHash = h) = true) :
    1 ≤ countKey st i h := by
  obtain ⟨r, hr, hpr⟩ := List.any_eq_true.mp hany
  have : r ∈ st.rows.filter (fun r => r.influencerId = i && r.contentHash = h) :=
    List.mem_filter.mpr ⟨hr, hpr⟩
  have : st.rows.filter (fun r => r.influencerId = i && r.contentHash = h) ≠ [] :=
    List.ne_nil_of_mem this
  have := List.length_pos.mpr this
  simpa [countKey] using this

/-- C1: the `scraped_posts` record operation is idempotent: with a
healthy store satisfying the composite-key uniqueness invariant,
recording the same (subject id, fingerprint) key twice raises no error,
leaves the store exactly as after the first call, and leaves exactly
one row with that key. -/
theorem c1_record_idempotent (st : LedgerStore) (hfail : st.failing = false)
    (hu : UniqueKeyed st) (id1 id2 influencerId contentHash : String)
    (p : SPost) (b : Bool) (ty : String) (now : Int) :
    (recordScrapedPost st id1 influencerId contentHash p b ty now).2 = none ∧
    (recordScrapedPost
      (recordScrapedPost st id1 influencerId contentHash p b ty now).1
      id2 influencerId contentHash p b ty now) =
      ((recordScrapedPost st id1 influencerId contentHash p b ty now).1, none) ∧
    countKey (recordScrapedPost st id1 influencerId contentHash p b ty now).1
      influencerId contentHash = 1 := by
  cases hany : st.rows.any
      (fun r => r.influencerId = influencerId && r.contentHash = contentHash) with
  | true =>
      -- the key is already present: both calls are silent no-ops
      have hex := hany
      simp only [List.any_eq_true, Bool.and_eq_true, decide_eq_true_eq] at hex
      have h1 : recordScrapedPost st id1 influencerId contentHash p b ty now =
          (st, none) := by
        simp [recordScrapedPost, insertScraped, hfail, mkScrapedRow, hex]
      have h2 : recordScrapedPost st id2 influencerId contentHash p b ty now =
          (st, none) := by
        simp [recordScrapedPost, insertScraped, hfail, mkScrapedRow, hex]
      refine ⟨by simp [h1], by simp [h1, h2], ?_⟩
      have hle := hu influencerId contentHash
      have hge := countKey_pos_of_any st influencerId contentHash hany
      simp [h1]
      omega
  | false =>
      -- fresh key: the first call inserts, the second is a no-op
      have hex := hany
      simp only [List.any_eq_false, Bool.and_eq_true, decide_eq_true_eq] at hex
      set row := mkScrapedRow id1 influencerId contentHash p b ty now with hrow
      have hrowi : row.influencerId = influencerId := rfl
      have hrowh : row.contentHash = contentHash := rfl
      have h1 : recordScrapedPost st id1 influencerId contentHash p b ty now =
          ({ st with rows := st.rows ++ [row] }, none) := by
        simp only [recordScrapedPost, insertScraped, hfail, Bool.false_eq_true,
          if_false]
        rw [if_neg (by simp [mkScrapedRow, hany])]
      have h2 : recordScrapedPost ({ st with rows := st.rows ++ [row] } :
            LedgerStore) id2 influencerId contentHash p b ty now =
          ({ st with rows := st.rows ++ [row] }, none) := by
        simp only [recordScrapedPost, insertScraped, hfail, Bool.false_eq_true,
          if_false]
        rw [if_pos (by simp [mkScrapedRow, List.any_append, hrow])]
      have hzero := countKey_eq_zero_of_not_any st influencerId contentHash hany
      refine ⟨by simp [h1], by simp [h1, h2], ?_⟩
      rw [h1]
      have hmatch := countKey_append_match st.rows st.failing row
        influencerId contentHash hrowi hrowh
      have hz : countKey { rows := st.rows, failing := st.failing }
          influencerId contentHash = 0 := by
        simpa [countKey] using hzero
      simp only [countKey] at hmatch hz ⊢
      omega

/-- Witness for C1 at a concrete store. -/
theorem c1_record_idempotent_witness :
    emptyStore.failing = false ∧
    ((recordScrapedPost emptyStore "a" "inf" "h"
        dummyPost true "single_pick" 0).2 = none ∧
      (recordScrapedPost
        (recordScrapedPost emptyStore "a" "inf" "h"
          dummyPost true "single_pick" 0).1
        "b" "inf" "h" dummyPost true "single_pick" 0) =
        ((recordScrapedPost emptyStore "a" "inf" "h"
          dummyPost true "single_pick" 0).1, none) ∧
      countKey (recordScrapedPost emptyStore "a" "inf" "h"
        dummyPost true "single_pick" 0).1 "inf" "h" = 1) :=
  ⟨rfl, c1_record_idempotent emptyStore rfl
    (fun i h => by simp [emptyStore, countKey]) "a" "b" "inf" "h" dummyPost true
    "single_pick" 0⟩

theorem recordScrapedPost_failing (st : LedgerStore) (hf : st.failing = true)
    (newId influencerId contentHash : String) (p : SPost) (b : Bool)
    (ty : String) (now : Int) :
    recordScrapedPost st newId influencerId contentHash p b ty now =
      (st, some "Failed to record scraped post: store unreachable") := by
  simp [recordScrapedPost, insertScraped, hf]

theorem createReviewsForAssets_failing (st : LedgerStore) (hf : st.failing = true)
    (reviews : List ReviewRow) (influencerId platform : String) (post : SPost)
    (contentHash : String) (confidence : Rat) (now : Int) (mkId : Nat → String) :
    ∀ assets, createReviewsForAssets st reviews influencerId platform post
      contentHash confidence now mkId assets = (reviews, [], 0) := by
  intro assets
  induction assets with
  | nil => rfl
  | cons a rest ih =>
      cases hsym : a.symbol with
      | none => simpa [createReviewsForAssets, hsym] using ih
      | some s =>
          simp only [createReviewsForAssets, hsym]
          rcases Decidable.em (s = "" ∨ badSymbols.contains s) with hbad | hbad
          · rw [if_pos hbad]; exact ih
          · rw [if_neg hbad]
            simp [createPendingReview, hf, ih]

theorem analyzePosts_failing (oracle : String → Analysis)
    (hashFn : String → String) (mkId : Nat → String)
    (influencerId platform : String) (now : Int) (st : LedgerStore)
    (hf : st.failing = true) :
    ∀ (posts : List SPost) (reviews : List ReviewRow) (res : TrackResults),
    (analyzePosts oracle hashFn mkId influencerId platform now st reviews res
        posts).1 = st ∧
    (analyzePosts oracle hashFn mkId influencerId platform now st reviews res
        posts).2.1 = reviews ∧
    (analyzePosts oracle hashFn mkId influencerId platform now st reviews res
        posts).2.2.postsAnalyzed = res.postsAnalyzed + posts.length := by
  intro posts
  induction posts with
  | nil => intro reviews res; simp [analyzePosts]
  | cons post rest ih =>
      intro reviews res
      simp only [analyzePosts]
      cases herr : (oracle post.content).error with
      | some e =>
          simp only [herr, recordScrapedPost_failing st hf]
          have := ih reviews
            { res with
              postsAnalyzed := res.postsAnalyzed + 1,
              errors := res.errors ++ ["AI error: " ++ e],
              logs := res.logs ++
                (some "Failed to record scraped post: store unreachable").toList }
          refine ⟨this.1, this.2.1, ?_⟩
          rw [this.2.2]
          simp [List.length_cons]
          omega
      | none =>
          simp only [herr]
          by_cases hirr : (oracle post.content).postType = "irrelevant" ∨
              (oracle post.content).postType = "lifestyle" ∨
              (oracle post.content).postType = "other" ∨
              (oracle post.content).assets = []
          · simp only [hirr, if_true, recordScrapedPost_failing st hf]
            have := ih reviews
              { res with
                postsAnalyzed := res.postsAnalyzed + 1,
                postsSkippedIrrelevant := res.postsSkippedIrrelevant + 1,
                logs := res.logs ++
                  (some "Failed to record scraped post: store unreachable").toList }
            refine ⟨this.1, this.2.1, ?_⟩
            rw [this.2.2]
            simp [List.length_cons]
            omega
          · simp only [hirr, if_false, recordScrapedPost_failing st hf,
              createReviewsForAssets_failing st hf]
            have := ih reviews
              { res with
                postsAnalyzed := res.postsAnalyzed + 1,
                recommendationsFound := res.recommendationsFound + 0,
                pendingReviewIds := res.pendingReviewIds ++ [],
                logs := res.logs ++
                  (some "Failed to record scraped post: store unreachable").toList }
            refine ⟨this.1, this.2.1, ?_⟩
            rw [this.2.2]
            simp [List.length_cons]
            omega

/-- C9: ledger failure degradation.  With an unreachable store, the
dedup read in `_filter_already_analyzed` degrades to returning every
scraped post unchanged, and ledger-write failures inside the analysis
loop are logged per post while the loop still processes every post
(the store and review collections are simply left unchanged and the
analyzed counter covers the whole input). -/
theorem c9_failure_degradation (hashFn : String → String)
    (oracle : String → Analysis) (mkId : Nat → String)
    (st : LedgerStore) (influencerId platform : String) (now : Int)
    (posts : List SPost) (reviews : List ReviewRow) (res : TrackResults)
    (hf : st.failing = true) :
    filterAlreadyAnalyzed hashFn st influencerId posts = posts ∧
    (analyzePosts oracle hashFn mkId influencerId platform now st reviews res
        posts).1 = st ∧
    (analyzePosts oracle hashFn mkId influencerId platform now st reviews res
        posts).2.1 = reviews ∧
    (analyzePosts oracle hashFn mkId influencerId platform now st reviews res
        posts).2.2.postsAnalyzed = res.postsAnalyzed + posts.length := by
  have h := analyzePosts_failing oracle hashFn mkId influencerId platform now
    st hf posts reviews res
  exact ⟨by simp [filterAlreadyAnalyzed, seenHashes, hf], h.1, h.2.1, h.2.2⟩

/-- Witness for C9 at a concrete failing store and one post. -/
theorem c9_failure_degradation_witness :
    failingStore.failing = true ∧
    (filterAlreadyAnalyzed (fun s => s) failingStore "inf" [dummyPost] =
        [dummyPost] ∧
      (analyzePosts oracleNoAssets (fun s => s) (fun _ => "id") "inf"
          "threads" 0 failingStore [] emptyResults [dummyPost]).1 =
        failingStore ∧
      (analyzePosts oracleNoAssets (fun s => s) (fun _ => "id") "inf"
          "threads" 0 failingStore [] emptyResults [dummyPost]).2.1 = [] ∧
      (analyzePosts oracleNoAssets (fun s => s) (fun _ => "id") "inf"
          "threads" 0 failingStore [] emptyResults
          [dummyPost]).2.2.postsAnalyzed =
        emptyResults.postsAnalyzed + [dummyPost].length) :=
  ⟨rfl, c9_failure_degradation (fun s => s) oracleNoAssets (fun _ => "id")
    failingStore "inf" "threads" 0 [dummyPost] [] emptyResults rfl⟩

/-! ## Signal normalization (C8) -/

theorem normalizeAsset_eq_spec (a : RawAsset) :
    normalizeAsset a = specNormalizeAsset a := by
  unfold normalizeAsset specNormalizeAsset
  cases hsym : a.symbol with
  | none => simp [badSymbols]
  | some s =>
      simp only [Option.getD_some]
      by_cases hbad : s = "" ∨ s = "None" ∨ s = "N/A" ∨ s = "null"
      · rw [if_neg, if_pos hbad]
        push_neg
        rcases hbad with h | h | h | h <;> simp [badSymbols, h]
      · rw [if_pos, if_neg hbad]
        · push_neg at hbad
          obtain ⟨h1, h2, h3, h4⟩ := hbad
          set u := (a.signal.getD "BUY").toUpper with hu
          by_cases hhold : u = "HOLD"
          · simp [validSignals, hhold]
          · by_cases hvalid : u = "BUY" ∨ u = "SELL" ∨ u = "HEDGE" ∨
                u = "WATCH" ∨ u = "CLOSED"
            · have hct : validSignals.contains u = true := by
                simpa [validSignals] using hvalid
              have hmem : u ∈ validSignals := by
                simpa [validSignals] using hvalid
              simp [hct, hhold, hvalid, hmem]
            · have hct : validSignals.contains u = false := by
                simpa [validSignals] using hvalid
              have hnm : u ∉ validSignals := by
                simpa [validSignals] using hvalid
              simp [hct, hhold, hvalid, hnm]
        · push_neg at hbad
          obtain ⟨h1, h2, h3, h4⟩ := hbad
          constructor
          · exact h1
          · simp [badSymbols, h1, h2, h3, h4]

/-- Every asset surviving the filter carries a truthy, non-placeholder
symbol. -/
theorem filterValidAssets_goodSym (assets : List RawAsset) :
    ∀ a ∈ filterValidAssets assets,
      strTruthy a.symbol = true ∧ badSymbols.contains (a.symbol.getD "") = false := by
  intro a ha
  obtain ⟨b, _, hb⟩ := List.mem_filterMap.mp ha
  unfold normalizeAsset at hb
  by_cases hcond : (b.symbol.getD "") ≠ "" ∧ ¬ badSymbols.contains (b.symbol.getD "")
  · rw [if_pos hcond] at hb
    simp only [Option.some.injEq] at hb
    obtain ⟨h1, h2⟩ := hcond
    have hsymeq : a.symbol = b.symbol := by
      rw [← hb]
    cases hsym : b.symbol with
    | none => simp [hsym] at h1
    | some s =>
        rw [hsym] at hsymeq
        simp only [hsym, Option.getD_some] at h1 h2
        refine ⟨by simp [hsymeq, strTruthy, h1], ?_⟩
        rw [hsymeq]
        simp only [Option.getD_some]
        exact Bool.not_eq_true _ ▸ (by simpa using h2)
  · rw [if_neg hcond] at hb
    exact absurd hb (by simp)

theorem createReviewsForAssets_length (st : LedgerStore) (hf : st.failing = false)
    (influencerId platform : String) (post : SPost)
    (contentHash : String) (confidence : Rat) (now : Int) (mkId : Nat → String) :
    ∀ (assets : List RawAsset) (reviews : List ReviewRow),
      (∀ a ∈ assets, strTruthy a.symbol = true ∧
        badSymbols.contains (a.symbol.getD "") = false) →
      ((createReviewsForAssets st reviews influencerId platform post
          contentHash confidence now mkId assets).1.length =
        reviews.length + assets.length ∧
      (createReviewsForAssets st reviews influencerId platform post
          contentHash confidence now mkId assets).2.2 = assets.length) := by
  intro assets
  induction assets with
  | nil => intro reviews _; simp [createReviewsForAssets]
  | cons a rest ih =>
      intro reviews hgood
      obtain ⟨h1, h2⟩ := hgood a (by simp)
      cases hsym : a.symbol with
      | none => simp [hsym, strTruthy] at h1
      | some s =>
          have hs1 : ¬ s = "" := by simpa [hsym, strTruthy] using h1
          have hs2 : ¬ badSymbols.contains s := by simpa [hsym] using h2
          simp only [createReviewsForAssets, hsym]
          rw [if_neg (by push_neg; exact ⟨hs1, by simpa using hs2⟩)]
          simp only [createPendingReview, hf, Bool.false_eq_true, if_false]
          have ihr := ih (reviews ++ [mkPendingRow (mkId reviews.length)
              influencerId ("AUTO_" ++ platform.toUpper) post.url post.content
              (some s) a.signal confidence (some contentHash) (some post.date)
              now])
            (fun x hx => hgood x (by simp [hx]))
          refine ⟨?_, ?_⟩
          · rw [ihr.1]
            simp only [List.length_append, List.length_cons, List.length_nil]
            omega
          · rw [ihr.2]
            simp

/-- C8: signal normalization.  The extraction filter of
`extract_assets` coincides with the spec's normalisation (placeholder
symbols dropped, `HOLD` remapped to `WATCH`, out-of-vocabulary signals
defaulted to `BUY`), every surviving asset carries a non-placeholder
symbol, and the pending-review loop creates exactly one review per
surviving asset (so dropped assets yield none). -/
theorem c8_signal_normalization (assets : List RawAsset) (st : LedgerStore)
    (reviews : List ReviewRow) (influencerId platform : String) (post : SPost)
    (contentHash : String) (confidence : Rat) (now : Int) (mkId : Nat → String)
    (hf : st.failing = false) :
    filterValidAssets assets = assets.filterMap specNormalizeAsset ∧
    (∀ a ∈ filterValidAssets assets, strTruthy a.symbol = true ∧
      badSymbols.contains (a.symbol.getD "") = false) ∧
    (createReviewsForAssets st reviews influencerId platform post
        contentHash confidence now mkId (filterValidAssets assets)).1.length =
      reviews.length + (filterValidAssets assets).length ∧
    (createReviewsForAssets st reviews influencerId platform post
        contentHash confidence now mkId (filterValidAssets assets)).2.2 =
      (filterValidAssets assets).length := by
  have hlen := createReviewsForAssets_length st hf influencerId platform post
    contentHash confidence now mkId (filterValidAssets assets) reviews
    (filterValidAssets_goodSym assets)
  refine ⟨?_, filterValidAssets_goodSym assets, hlen.1, hlen.2⟩
  unfold filterValidAssets
  exact List.filterMap_congr (fun a _ => normalizeAsset_eq_spec a)

/-- A HOLD recommendation on a good symbol, as the oracle may return it. -/
def holdAsset : RawAsset :=
  { symbol := some "NVDA", category := none, signal := some "HOLD",
    market := some "US", note := none }

/-- An asset with a placeholder symbol, to be dropped. -/
def placeholderAsset : RawAsset :=
  { symbol := some "N/A", category := none, signal := some "BUY",
    market := some "US", note := none }

/-- Witness for C8 on a concrete asset list. -/
theorem c8_signal_normalization_witness :
    emptyStore.failing = false ∧
    (filterValidAssets [holdAsset, placeholderAsset] =
        [holdAsset, placeholderAsset].filterMap specNormalizeAsset ∧
      (∀ a ∈ filterValidAssets [holdAsset, placeholderAsset],
        strTruthy a.symbol = true ∧
        badSymbols.contains (a.symbol.getD "") = false) ∧
      (createReviewsForAssets emptyStore [] "inf" "threads" dummyPost "h" 1 0
          (fun _ => "id")
          (filterValidAssets [holdAsset, placeholderAsset])).1.length =
        List.length ([] : List ReviewRow) +
          (filterValidAssets [holdAsset, placeholderAsset]).length ∧
      (createReviewsForAssets emptyStore [] "inf" "threads" dummyPost "h" 1 0
          (fun _ => "id")
          (filterValidAssets [holdAsset, placeholderAsset])).2.2 =
        (filterValidAssets [holdAsset, placeholderAsset]).length) :=
  ⟨rfl, c8_signal_normalization [holdAsset, placeholderAsset] emptyStore []
    "inf" "threads" dummyPost "h" 1 0 (fun _ => "id") rfl⟩

/-! ## Review state machine (C3) -/

/-- C3 counterexample: rejecting an already-APPROVED review does not
return not-found — the endpoint issues a guarded UPDATE that matches no
row and then unconditionally answers with the success payload
`"rejected"`, leaving the database unchanged.  This refutes the claim
that Reject on a non-PENDING review returns not-found. -/
theorem c3_counterexample :
    rejectPendingReviewEndpoint dbApproved "r1" 5 = (dbApproved, "rejected") ∧
    (rejectPendingReviewEndpoint dbApproved "r1" 5).2 ≠
      "404: Pending review not found or already processed" := by
  constructor
  · decide
  · decide

/-- C3 as amended: Approve on an absent or non-PENDING review returns
not-found with no side effects; Reject on an absent or non-PENDING
review performs no update (no side effects) but answers with the
success payload `"rejected"` rather than not-found; Delete removes the
review unconditionally, regardless of its prior status. -/
theorem c3_amended (provider : Provider) (db : ReviewDB) (rid : String)
    (req : ApproveReq) (recId : String) (now : Int) (db2 : ReviewDB)
    (rid2 : String)
    (h : ∀ r ∈ db.reviews, ¬(r.id = rid ∧ r.status = "PENDING")) :
    approvePendingReviewEndpoint provider db rid req recId now =
      (db, .error "404: Pending review not found or already processed") ∧
    rejectPendingReviewEndpoint db rid now = (db, "rejected") ∧
    (deletePendingReviewEndpoint db2 rid2).1.reviews =
      db2.reviews.filter (fun r => r.id ≠ rid2) ∧
    (deletePendingReviewEndpoint db2 rid2).2 = "deleted" := by
  have hfind : db.reviews.find?
      (fun r => r.id = rid && r.status = "PENDING") = none := by
    apply List.find?_eq_none.mpr
    intro x hx
    simpa using h x hx
  refine ⟨by simp [approvePendingReviewEndpoint, hfind], ?_, rfl, rfl⟩
  have hmap : db.reviews.map (fun r =>
      if r.id = rid && r.status = "PENDING" then
        { r with status := "REJECTED", reviewedAt := some now }
      else r) = db.reviews := by
    conv_rhs => rw [← List.map_id db.reviews]
    apply List.map_congr_left
    intro r hr
    rw [if_neg (by simpa using h r hr)]
    rfl
  unfold rejectPendingReviewEndpoint
  rw [hmap]

/-- Witness for C3 at the concrete single-review database. -/
theorem c3_amended_witness :
    (∀ r ∈ dbApproved.reviews, ¬(r.id = "r1" ∧ r.status = "PENDING")) ∧
    (approvePendingReviewEndpoint trivialProvider dbApproved "r1"
        emptyApproveReq "rec1" 5 =
      (dbApproved, .error "404: Pending review not found or already processed") ∧
    rejectPendingReviewEndpoint dbApproved "r1" 5 = (dbApproved, "rejected") ∧
    (deletePendingReviewEndpoint dbApproved "r1").1.reviews =
      dbApproved.reviews.filter (fun r => r.id ≠ "r1") ∧
    (deletePendingReviewEndpoint dbApproved "r1").2 = "deleted") :=
  ⟨by decide, c3_amended trivialProvider dbApproved "r1" emptyApproveReq
    "rec1" 5 dbApproved "r1" (by decide)⟩

/-! ## Price backfill (C4) -/

theorem bestLoop_cons_some (target : Int) (b0 : PriceBar) (d0 : Nat)
    (p : PriceBar) (rest : List PriceBar) :
    bestLoop target (some (b0, d0)) (p :: rest) =
      if barDistSec target p < d0 then
        bestLoop target (some (p, barDistSec target p)) rest
      else bestLoop target (some (b0, d0)) rest := by
  simp [bestLoop, barDistSec]

theorem bestLoop_cons_none (target : Int) (p : PriceBar)
    (rest : List PriceBar) :
    bestLoop target none (p :: rest) =
      bestLoop target (some (p, barDistSec target p)) rest := by
  simp [bestLoop, barDistSec]

theorem bestLoop_acc (target : Int) :
    ∀ (l : List PriceBar) (b0 : PriceBar),
      ∃ b, bestLoop target (some (b0, barDistSec target b0)) l =
          some (b, barDistSec target b) ∧
        (b = b0 ∨ b ∈ l) ∧ barDistSec target b ≤ barDistSec target b0 ∧
        ∀ q ∈ l, barDistSec target b ≤ barDistSec target q := by
  intro l
  induction l with
  | nil => intro b0; exact ⟨b0, rfl, Or.inl rfl, le_refl _, by simp⟩
  | cons p rest ih =>
      intro b0
      by_cases hlt : barDistSec target p < barDistSec target b0
      · obtain ⟨b, hb, hmem, hle, hall⟩ := ih p
        refine ⟨b, ?_, ?_, ?_, ?_⟩
        · rw [bestLoop_cons_some, if_pos hlt]; exact hb
        · rcases hmem with rfl | hm
          · exact Or.inr (by simp)
          · exact Or.inr (by simp [hm])
        · exact le_trans hle (le_of_lt hlt)
        · intro q hq
          rcases List.mem_cons.mp hq with rfl | hq
          · exact hle
          · exact hall q hq
      · obtain ⟨b, hb, hmem, hle, hall⟩ := ih b0
        refine ⟨b, ?_, ?_, hle, ?_⟩
        · rw [bestLoop_cons_some, if_neg hlt]; exact hb
        · rcases hmem with rfl | hm
          · exact Or.inl rfl
          · exact Or.inr (by simp [hm])
        · intro q hq
          rcases List.mem_cons.mp hq with rfl | hq
          · exact le_trans hle (not_lt.mp hlt)
          · exact hall q hq

theorem selectBest_spec (target : Int) (l : List PriceBar) (hne : l ≠ []) :
    ∃ b ∈ l, selectBest target l = some b ∧
      ∀ q ∈ l, barDistSec target b ≤ barDistSec target q := by
  cases l with
  | nil => exact absurd rfl hne
  | cons p rest =>
      obtain ⟨b, hb, hmem, hle, hall⟩ := bestLoop_acc target rest p
      refine ⟨b, ?_, ?_, ?_⟩
      · rcases hmem with rfl | hm
        · simp
        · simp [hm]
      · simp [selectBest, bestLoop_cons_none, hb]
      · intro q hq
        rcases List.mem_cons.mp hq with rfl | hq
        · exact hle
        · exact hall q hq

theorem barDistSec_le_iff (t : Int) (p q : PriceBar) :
    barDistSec t p ≤ barDistSec t q ↔
      (p.date - t).natAbs ≤ (q.date - t).natAbs := by
  have hp : p.date * 86400 - t * 86400 = (p.date - t) * 86400 := by ring
  have hq : q.date * 86400 - t * 86400 = (q.date - t) * 86400 := by ring
  simp only [barDistSec, hp, hq, Int.natAbs_mul]
  have h86 : (86400 : Int).natAbs = 86400 := rfl
  rw [h86]
  omega

/-- C4 counterexample: with no historical closes, a recommendation date
ten days in the future and a live quote available, the backfill stores
the live quote — although a date in the future is not "within the last
3 days of now", refuting the claim's "only when" condition. -/
theorem c4_counterexample :
    entryPriceBackfill quoteOnlyProvider "AAPL" 10 0 = some 42 ∧
    ¬((10 : Int) ≤ 0) := by
  constructor
  · rfl
  · decide

/-- C4 as amended: with no explicit override, the entry price is the
close whose date is nearest (by absolute distance) to the
recommendation date among the provider's ±5-day-window response; when
the response is empty, a live (nonzero) quote is used exactly when
`now - recDate <= 3` days — which also covers future recommendation
dates — and otherwise the price is left unset.  The single-approval
path stores exactly this value in the created recommendation. -/
theorem c4_price_backfill (provider : Provider) (sym : String)
    (recDate nowDay : Int) (db : ReviewDB) (review : ReviewRow)
    (req : ApproveReq) (recId : String) (now : Int) (db' : ReviewDB)
    (rid : String) :
    (windowPrices provider sym recDate ≠ [] →
      ∃ b ∈ windowPrices provider sym recDate,
        entryPriceBackfill provider sym recDate nowDay = some b.close ∧
        ∀ q ∈ windowPrices provider sym recDate,
          (b.date - recDate).natAbs ≤ (q.date - recDate).natAbs) ∧
    (windowPrices provider sym recDate = [] → ¬(nowDay - recDate ≤ 3) →
      entryPriceBackfill provider sym recDate nowDay = none) ∧
    (windowPrices provider sym recDate = [] → nowDay - recDate ≤ 3 →
      entryPriceBackfill provider sym recDate nowDay =
        (match provider.quote sym with
          | some q => if q ≠ 0 then some q else none
          | none => none)) ∧
    (approveReview provider db review req recId now = .ok (db', rid) →
      req.entryPrice = none →
      strTruthy (pyOr req.symbol review.suggestedSymbol) = true →
      ∃ newRec recDate2, resolveRecDate review.postDate now = .ok recDate2 ∧
        db'.recs = db.recs ++ [newRec] ∧
        newRec.recommendationDate = recDate2 ∧
        newRec.entryPrice = entryPriceBackfill provider
          ((pyOr req.symbol review.suggestedSymbol).getD "") recDate2 now) := by
  refine ⟨?_, ?_, ?_, ?_⟩
  · intro hne
    obtain ⟨b, hbmem, hbsel, hball⟩ := selectBest_spec recDate
      (windowPrices provider sym recDate) hne
    refine ⟨b, hbmem, ?_, fun q hq => (barDistSec_le_iff recDate b q).mp
      (hball q hq)⟩
    simp [entryPriceBackfill, List.isEmpty_iff, hne, hbsel]
  · intro hempty hfar
    simp [entryPriceBackfill, hempty, hfar]
  · intro hempty hnear
    simp [entryPriceBackfill, hempty, hnear]
  · intro hok hnone htruthy
    unfold approveReview at hok
    cases hdate : resolveRecDate review.postDate now with
    | error e => rw [hdate] at hok; exact absurd hok (by simp [Bind.bind, Except.bind])
    | ok recDate2 =>
        rw [hdate] at hok
        simp only [Bind.bind, Except.bind] at hok
        cases htf : parseTimeframe ((pyOr (pyOr req.timeframe
            review.suggestedTimeframe) (some "MID")).getD "MID") with
        | none => rw [htf] at hok; exact absurd hok (by simp)
        | some tf =>
            rw [htf] at hok
            simp only [Except.ok.injEq, Prod.mk.injEq] at hok
            obtain ⟨hdb, _⟩ := hok
            subst hdb
            refine ⟨_, recDate2, rfl, rfl, rfl, ?_⟩
            simp only [hnone, htruthy, if_true]

set_option maxRecDepth 10000 in
/-- Witness for C4, applying the amended backfill theorem at three
providers (nearest-close, unset-far-date and live-quote cases) and at
one complete approval. -/
theorem c4_price_backfill_witness :
    (windowPrices twoBarProvider "AAPL" 7 ≠ [] ∧
      (∃ b ∈ windowPrices twoBarProvider "AAPL" 7,
        entryPriceBackfill twoBarProvider "AAPL" 7 9 = some b.close ∧
        ∀ q ∈ windowPrices twoBarProvider "AAPL" 7,
          (b.date - 7).natAbs ≤ (q.date - 7).natAbs)) ∧
    (windowPrices trivialProvider "AAPL" 0 = [] ∧ ¬((20 : Int) - 0 ≤ 3) ∧
      entryPriceBackfill trivialProvider "AAPL" 0 20 = none) ∧
    (windowPrices quoteOnlyProvider "AAPL" 10 = [] ∧ ((0 : Int) - 10 ≤ 3) ∧
      entryPriceBackfill quoteOnlyProvider "AAPL" 10 0 =
        (match quoteOnlyProvider.quote "AAPL" with
          | some q => if q ≠ 0 then some q else none
          | none => none)) ∧
    (approveReview trivialProvider dbPending pendingReview emptyApproveReq
        "rec1" 5 = .ok (dbAfterApprove, "rec1") ∧
      emptyApproveReq.entryPrice = none ∧
      strTruthy (pyOr emptyApproveReq.symbol pendingReview.suggestedSymbol)
        = true ∧
      (∃ newRec recDate2,
        resolveRecDate pendingReview.postDate 5 = .ok recDate2 ∧
        dbAfterApprove.recs = dbPending.recs ++ [newRec] ∧
        newRec.recommendationDate = recDate2 ∧
        newRec.entryPrice = entryPriceBackfill trivialProvider
          ((pyOr emptyApproveReq.symbol
            pendingReview.suggestedSymbol).getD "") recDate2 5)) :=
  ⟨⟨by decide, (c4_price_backfill twoBarProvider "AAPL" 7 9 dbPending
      pendingReview emptyApproveReq "rec1" 5 dbAfterApprove "rec1").1
      (by decide)⟩,
    ⟨by decide, by decide, ((c4_price_backfill trivialProvider "AAPL" 0 20
      dbPending pendingReview emptyApproveReq "rec1" 5 dbAfterApprove
      "rec1").2.1 (by decide) (by decide))⟩,
    ⟨by decide, by decide, ((c4_price_backfill quoteOnlyProvider "AAPL" 10 0
      dbPending pendingReview emptyApproveReq "rec1" 5 dbAfterApprove
      "rec1").2.2.1 (by decide) (by decide))⟩,
    by rfl, by decide, by decide,
    ((c4_price_backfill trivialProvider "AAPL" 0 20 dbPending pendingReview
      emptyApproveReq "rec1" 5 dbAfterApprove "rec1").2.2.2 (by rfl)
      (by decide) (by decide))⟩

/-! ## Backfill divergence of the manual batch path (C5) -/

/-- C5: the claim that all recommendation-creation paths resolve the
entry price by one shared backfill algorithm fails on the manual batch
path.  At the same provider, symbol and dates, the `_approve_review`
backfill stores the nearest close (150), while
`create_recommendations_batch` computes that close into `initial_price`
and then inserts the untouched `entry_price` (`none`); and when the
provider returns no close at all, the batch path raises
`UnboundLocalError` because `initial_price` is read before assignment. -/
theorem c5_batch_divergence :
    entryPriceBackfill oneBarProvider "AAPL" 7 7 = some 150 ∧
    batchEntryPrice oneBarProvider none "AAPL" 7 7 = .ok none ∧
    some (150 : Rat) ≠ (none : Option Rat) ∧
    batchEntryPrice trivialProvider none "AAPL" 7 7 =
      .error "UnboundLocalError: initial_price referenced before assignment" := by
  exact ⟨rfl, rfl, by simp, rfl⟩

/-! ## "Recent" post date: silent drop at review creation (C10) -/

theorem parseDateYMD_recent : parseDateYMD "Recent" = none := rfl

/-- C10 counterexample: the claimed approval-time date-parse failure is
unreachable.  The scraper does store the literal "Recent" when no
`<time>` element is found, but `pending_reviews.post_date` is a DATE
column (migration 002), so the INSERT inside `_create_pending_review`
fails to cast "Recent", the exception is caught and `none` is returned:
on a concrete healthy store no pending review is created at all, hence
there is no "resulting pending review" whose approval could raise the
claimed error. -/
theorem c10_counterexample :
    threadsPostDate none = "Recent" ∧
    createPendingReviewDB emptyStore [] "p1" "inf" "AUTO_THREADS" "url"
      "content" (some "NVDA") (some "BUY") 1 (some "h") (some "Recent") 5 =
      ([], none) :=
  ⟨rfl, rfl⟩

/-- C10 (amended): a Threads post with no extractable `<time>` element
gets the literal post date "Recent"; creating its pending review then
fails inside `_create_pending_review` — the DATE-typed post-date column
rejects the string, the exception is caught and `none` is returned — so
the review is silently dropped (the table is unchanged and no review id
is produced) rather than raising any approval-time date-parse error or
falling back to the current processing date.  A post date accepted by
the DATE cast is stored, and resolving it at approval succeeds with
exactly that date, while a NULL post date resolves to the current
processing date — so the date-parse failure of `_approve_review` is
unreachable for stored reviews. -/
theorem c10_recent_date_drop (st : LedgerStore) (reviews : List ReviewRow)
    (newId influencerId source sourceUrl originalContent : String)
    (suggestedSymbol suggestedSignal : Option String)
    (confidence : Rat) (contentHash : Option String) (now : Int)
    (dBad dOk : String) (day : Int)
    (hf : st.failing = false)
    (hbad : parseDateYMD dBad = none)
    (hok : parseDateYMD dOk = some day) :
    threadsPostDate none = "Recent" ∧
    parseDateYMD "Recent" = none ∧
    createPendingReviewDB st reviews newId influencerId source sourceUrl
      originalContent suggestedSymbol suggestedSignal confidence
      contentHash (some dBad) now = (reviews, none) ∧
    createPendingReviewDB st reviews newId influencerId source sourceUrl
      originalContent suggestedSymbol suggestedSignal confidence
      contentHash (some dOk) now =
      (reviews ++ [mkPendingRow newId influencerId source sourceUrl
        originalContent suggestedSymbol suggestedSignal confidence
        contentHash (some dOk) now], some newId) ∧
    resolveRecDate (some dOk) now = .ok day ∧
    resolveRecDate none now = .ok now := by
  refine ⟨rfl, rfl, ?_, ?_, ?_, rfl⟩
  · unfold createPendingReviewDB
    rw [hf]
    simp only [Bool.false_eq_true, if_false, duckdbCastDate, hbad]
  · unfold createPendingReviewDB
    rw [hf]
    simp only [Bool.false_eq_true, if_false, duckdbCastDate, hok]
  · by_cases he : dOk = ""
    · subst he
      rw [show parseDateYMD "" = none from rfl] at hok
      exact Option.noConfusion hok
    · unfold resolveRecDate
      simp only []
      rw [if_neg he, hok]

/-- Witness for the amended C10 theorem: the scraper's "Recent"
placeholder is dropped at creation on a concrete healthy store, while
the ISO date `2024-01-05` is stored and later resolves to its civil day
number. -/
theorem c10_recent_date_drop_witness :
    (emptyStore.failing = false ∧ parseDateYMD "Recent" = none ∧
      parseDateYMD "2024-01-05" = some 19727) ∧
    (threadsPostDate none = "Recent" ∧
      parseDateYMD "Recent" = none ∧
      createPendingReviewDB emptyStore [] "p1" "inf" "AUTO_THREADS" "url"
        "content" (some "NVDA") (some "BUY") 1 (some "h")
        (some "Recent") 5 = ([], none) ∧
      createPendingReviewDB emptyStore [] "p1" "inf" "AUTO_THREADS" "url"
        "content" (some "NVDA") (some "BUY") 1 (some "h")
        (some "2024-01-05") 5 =
        ([] ++ [mkPendingRow "p1" "inf" "AUTO_THREADS" "url" "content"
          (some "NVDA") (some "BUY") 1 (some "h") (some "2024-01-05") 5],
          some "p1") ∧
      resolveRecDate (some "2024-01-05") 5 = .ok 19727 ∧
      resolveRecDate none 5 = .ok 5) :=
  ⟨⟨rfl, rfl, by decide⟩, c10_recent_date_drop emptyStore [] "p1" "inf"
    "AUTO_THREADS" "url" "content" (some "NVDA") (some "BUY") 1 (some "h") 5
    "Recent" "2024-01-05" 19727 rfl rfl (by decide)⟩

/-! ## Output ordering (C7) -/

/-- C7 counterexample: a post with a pre-epoch timestamp (-100 s) sorts
after a post with no timestamp, because missing timestamps are mapped
to the epoch-0 sentinel, which is larger.  So it is not true that every
post lacking a timestamp is placed after all posts that have one. -/
theorem c7_counterexample :
    mergeMultipartPosts (fun s => s) [postOld, postNoTs] =
      [clearTmp postNoTs, clearTmp postOld] ∧
    postOld.datetime.isSome = true ∧ postNoTs.datetime = none := by
  refine ⟨?_, rfl, rfl⟩
  decide

/-- C7 as amended: the final output is the newest-first sort of the
merged batch by best available timestamp with missing timestamps
treated as the Unix epoch (key 0); consequently a post lacking a
timestamp is placed after every post whose timestamp is positive, but a
post whose timestamp is at or before the epoch may come after an
untimestamped one. -/
theorem c7_output_ordering (hash : String → String) (posts : List SPost) :
    mergeMultipartPosts hash posts = (mergeCore hash posts).map clearTmp ∧
    (mergeCore hash posts).Pairwise newestFirst ∧
    (mergeCore hash posts).Pairwise
      (fun a b => a.datetime = none → ∀ t, b.datetime = some t → t ≤ 0) := by
  refine ⟨rfl, ?_, ?_⟩
  · unfold mergeCore
    by_cases h : posts.isEmpty
    · simp [h, List.isEmpty_iff.mp h]
    · simp only [h, Bool.false_eq_true, if_false]
      exact List.sorted_insertionSort newestFirst _
  · have hs : (mergeCore hash posts).Pairwise newestFirst := by
      unfold mergeCore
      by_cases h : posts.isEmpty
      · simp [h, List.isEmpty_iff.mp h]
      · simp only [h, Bool.false_eq_true, if_false]
        exact List.sorted_insertionSort newestFirst _
    refine hs.imp ?_
    intro a b hab hna t hbt
    simp only [newestFirst, sortKey, hna, hbt, Option.getD_some,
      Option.getD_none] at hab
    exact hab

/-! ## Multi-part merge (C6) -/

theorem firstOccur_foldl_subset :
    ∀ (l : List String) (acc : List String), (∀ x ∈ l, acc.contains x) →
      l.foldl (fun acc a => if acc.contains a then acc else acc ++ [a]) acc
        = acc := by
  intro l
  induction l with
  | nil => intro acc _; rfl
  | cons x xs ih =>
      intro acc hall
      simp only [List.foldl_cons, hall x (by simp), if_true]
      exact ih acc (fun y hy => hall y (by simp [hy]))

theorem firstOccur_all_eq (l : List String) (a : String) (hne : l ≠ [])
    (hall : ∀ x ∈ l, x = a) : firstOccur l = [a] := by
  cases l with
  | nil => exact absurd rfl hne
  | cons x xs =>
      have hx : x = a := hall x (by simp)
      subst hx
      unfold firstOccur
      simp only [List.foldl_cons, List.contains_nil, Bool.false_eq_true,
        if_false, List.nil_append]
      exact firstOccur_foldl_subset xs [x]
        (fun y hy => by simp [hall y (by simp [hy])])

theorem extendCluster_append (items : List (Nat × SPost)) :
    ∀ (fuel : Nat) (cl : List SPost) (used : List Nat) (e : Nat) (last : SPost),
      ∃ tail us, extendCluster items fuel cl used e last = (cl ++ tail, us) := by
  intro fuel
  induction fuel with
  | zero => intro cl used e last; exact ⟨[], used, by simp [extendCluster]⟩
  | succ f ih =>
      intro cl used e last
      cases hfind : findNext items used e last with
      | none => exact ⟨[], used, by simp [extendCluster, hfind]⟩
      | some jc =>
          obtain ⟨tail, us, htail⟩ := ih (cl ++ [jc.2]) (used ++ [jc.1])
            (e + 1) jc.2
          exact ⟨[jc.2] ++ tail, us, by simp [extendCluster, hfind, htail]⟩

theorem clusterLoop_accepted (items : List (Nat × SPost)) :
    ∀ (l : List (Nat × SPost)) (used : List Nat)
      (clusters : List (List SPost)) (reverted : List SPost),
      (∀ c ∈ clusters, c.length > 1 ∧
        ∀ t, (c.headD dummyPost).totalParts = some t → t ≠ 0 → t ≤ c.length) →
      ∀ c ∈ (clusterLoop items l used clusters reverted).2.1,
        c.length > 1 ∧
        ∀ t, (c.headD dummyPost).totalParts = some t → t ≠ 0 → t ≤ c.length := by
  intro l
  induction l with
  | nil => intro used clusters reverted hinv c hc; exact hinv c hc
  | cons ip rest ih =>
      intro used clusters reverted hinv c hc
      obtain ⟨i, p⟩ := ip
      by_cases hused : used.contains i
      · rw [show clusterLoop items ((i, p) :: rest) used clusters reverted =
            clusterLoop items rest used clusters reverted from by
              simp only [clusterLoop]
              rw [if_pos hused]] at hc
        exact ih used clusters reverted hinv c hc
      · by_cases hp1 : p.partNum == some 1
        · obtain ⟨tail, us, htail⟩ :=
            extendCluster_append items items.length [p] (used ++ [i]) 2 p
          set cluster := [p] ++ tail with hcl
          have hloopstep : clusterLoop items ((i, p) :: rest) used clusters
              reverted =
              (if cluster.length > 1 && !(match p.totalParts with
                  | some t => t != 0 && decide (cluster.length < t)
                  | none => false) then
                clusterLoop items rest us (clusters ++ [cluster]) reverted
              else
                clusterLoop items rest us clusters (reverted ++ cluster)) := by
            simp only [clusterLoop]
            rw [if_neg hused, if_pos hp1, htail]
          rw [hloopstep] at hc
          by_cases hacc : cluster.length > 1 && !(match p.totalParts with
              | some t => t != 0 && decide (cluster.length < t)
              | none => false)
          · rw [if_pos hacc] at hc
            refine ih us (clusters ++ [cluster]) reverted ?_ c hc
            intro c' hc'
            rcases List.mem_append.mp hc' with hmem | hmem
            · exact hinv c' hmem
            · have hceq : c' = cluster := by simpa using hmem
              subst hceq
              simp only [Bool.and_eq_true, Bool.not_eq_true'] at hacc
              obtain ⟨hlen, hcomp⟩ := hacc
              refine ⟨by simpa using hlen, ?_⟩
              intro t htp htne
              have hhead : (cluster.headD dummyPost).totalParts =
                  p.totalParts := by simp [hcl]
              rw [hhead] at htp
              rw [htp] at hcomp
              simp only [Bool.and_eq_false_iff] at hcomp
              rcases hcomp with hcomp | hcomp
              · exact absurd (by simpa using hcomp) htne
              · have : ¬ cluster.length < t := by simpa using hcomp
                omega
          · rw [if_neg hacc] at hc
            exact ih us clusters (reverted ++ cluster) hinv c hc
        · rw [show clusterLoop items ((i, p) :: rest) used clusters reverted =
              clusterLoop items rest used clusters reverted from by
                simp only [clusterLoop]
                rw [if_neg hused, if_neg hp1]] at hc
          exact ih used clusters reverted hinv c hc

/-- C6 counterexample: parts 1, 2, 3 of one author, where part 1
declares a total of 2, form a cluster of length 3 — not equal to the
declared total — and the cluster is still accepted and merged into one
post.  Acceptance only requires the cluster not to be shorter than the
declared total, refuting the claim's "length equals the declared
total-parts value". -/
theorem c6_counterexample :
    mergeMultipartPosts (fun _ => "H") [tri1, tri2, tri3] =
      [clearTmp mergedTri] ∧
    tri1.totalParts = some 2 ∧ (3 : Nat) ≠ 2 := by
  refine ⟨by decide, rfl, by decide⟩

theorem mergeAuthorGroup_pair (hash : String → String) (p1 p2 : SPost)
    (singles : List SPost)
    (h1 : p1.partNum = some 1) (ht : p1.totalParts = some 2)
    (h2 : p2.partNum = some 2)
    (hsingles : ∀ q ∈ singles, q.partNum = none)
    (htime : timeOk p1 p2 = true) :
    mergeAuthorGroup hash (p1 :: p2 :: singles) =
      singles ++ [mergedPair hash p1 p2] := by
  have hmultip : (p1 :: p2 :: singles).filter (fun p => p.partNum.isSome) =
      [p1, p2] := by
    simp only [List.filter_cons, h1, h2, Option.isSome_some, if_true]
    rw [List.filter_eq_nil_iff.mpr (fun q hq => by simp [hsingles q hq])]
  have hsingles0 : (p1 :: p2 :: singles).filter (fun p => !p.partNum.isSome) =
      singles := by
    simp only [List.filter_cons, h1, h2, Option.isSome_some, Bool.not_true,
      Bool.false_eq_true, if_false]
    exact List.filter_eq_self.mpr (fun q hq => by simp [hsingles q hq])
  have hsort : sortByPartNum [p1, p2] = [p1, p2] := by
    simp [sortByPartNum, List.insertionSort, List.orderedInsert, h1, h2]
  have henum : List.enum [p1, p2] = [(0, p1), (1, p2)] := by
    simp [List.enum, List.enumFrom]
  have hfind1 : findNext [(0, p1), (1, p2)] [0] 2 p1 = some (1, p2) := by
    simp [findNext, List.find?, h2, htime]
  have hfind2 : findNext [(0, p1), (1, p2)] [0, 1] 3 p2 = none := by
    simp [findNext, List.find?]
  have hext : extendCluster [(0, p1), (1, p2)] 2 [p1] [0] 2 p1 =
      ([p1, p2], [0, 1]) := by
    simp only [extendCluster, hfind1]
    simp only [List.append_nil, List.cons_append, List.nil_append,
      List.singleton_append]
    simp only [extendCluster, hfind2]
  have hloop : clusterLoop [(0, p1), (1, p2)] [(0, p1), (1, p2)] [] [] [] =
      ([0, 1], [[p1, p2]], []) := by
    simp only [clusterLoop]
    rw [if_neg (by simp), if_pos (by simp [h1])]
    have hlen : ([(0, p1), (1, p2)] : List (Nat × SPost)).length = 2 := rfl
    rw [hlen]
    rw [show ([] : List Nat) ++ [0] = [0] from rfl, hext]
    rw [if_pos (by simp [ht])]
    simp [clusterLoop]
  unfold mergeAuthorGroup
  rw [hmultip, hsingles0]
  dsimp only
  rw [hsort, henum, hloop]
  dsimp only
  have hint : "\n\n".intercalate [p1.content, p2.content] =
      p1.content ++ "\n\n" ++ p2.content := rfl
  simp [mergedPair, hint]

/-- C6 as amended: for a batch of one author's posts, a cluster of
parts {1, 2} with declared total 2 (time-compatible when both carry
timestamps) merges into exactly one post whose content is the two texts
concatenated in index order with a recomputed fingerprint; a cluster is
accepted only if it has more than one member and — when the first
member declares a nonzero total — its length is AT LEAST that total (it
may exceed it); a lone part 1 with declared total 2 is released back
as a standalone post. -/
theorem c6_merge_completeness (hash : String → String) (p1 p2 : SPost)
    (singles : List SPost) (lone : SPost)
    (h1 : p1.partNum = some 1) (ht : p1.totalParts = some 2)
    (h2 : p2.partNum = some 2)
    (hauth : p2.author = p1.author)
    (hsingles : ∀ q ∈ singles, q.partNum = none ∧ q.author = p1.author)
    (htime : timeOk p1 p2 = true)
    (hl1 : lone.partNum = some 1) (hlt : lone.totalParts = some 2) :
    (mergeMultipartPosts hash (p1 :: p2 :: singles)).Perm
      (singles.map clearTmp ++ [clearTmp (mergedPair hash p1 p2)]) ∧
    mergeMultipartPosts hash [lone] = [clearTmp lone] ∧
    (∀ (items : List (Nat × SPost)) c,
      c ∈ (clusterLoop items items [] [] []).2.1 →
      c.length > 1 ∧ ∀ t, (c.headD dummyPost).totalParts = some t → t ≠ 0 →
        t ≤ c.length) := by
  refine ⟨?_, ?_, ?_⟩
  · have hocc : firstOccur ((p1 :: p2 :: singles).map (·.author)) =
        [p1.author] := by
      apply firstOccur_all_eq _ _ (by simp)
      intro x hx
      simp only [List.map_cons, List.mem_cons, List.mem_map] at hx
      rcases hx with rfl | rfl | ⟨q, hq, rfl⟩
      · rfl
      · exact hauth
      · exact (hsingles q hq).2
    have hfilter : (p1 :: p2 :: singles).filter
        (fun p => p.author = p1.author) = p1 :: p2 :: singles := by
      apply List.filter_eq_self.mpr
      intro q hq
      simp only [List.mem_cons] at hq
      rcases hq with rfl | rfl | hq
      · simp
      · simp [hauth]
      · simp [(hsingles q hq).2]
    have hcore : mergeCore hash (p1 :: p2 :: singles) =
        List.insertionSort newestFirst
          (singles ++ [mergedPair hash p1 p2]) := by
      unfold mergeCore
      rw [if_neg (by simp)]
      rw [hocc]
      simp only [List.map_cons, List.map_nil, List.flatten]
      rw [hfilter, mergeAuthorGroup_pair hash p1 p2 singles h1 ht h2
        (fun q hq => (hsingles q hq).1) htime]
      simp
    unfold mergeMultipartPosts
    rw [hcore]
    exact (List.perm_insertionSort newestFirst _).map clearTmp |>.trans
      (by rw [List.map_append]; rfl) |>.symm.symm
  · have hocc : firstOccur ([lone].map (·.author)) = [lone.author] := by
      apply firstOccur_all_eq _ _ (by simp)
      intro x hx
      simp only [List.map_cons, List.map_nil, List.mem_singleton] at hx
      exact hx
    have hgroup : mergeAuthorGroup hash [lone] = [lone] := by
      have hmultip : [lone].filter (fun p => p.partNum.isSome) = [lone] := by
        simp [List.filter_cons, hl1]
      have hsingles0 : [lone].filter (fun p => !p.partNum.isSome) = [] := by
        simp [List.filter_cons, hl1]
      have hsort : sortByPartNum [lone] = [lone] := by
        simp [sortByPartNum, List.insertionSort, List.orderedInsert]
      have hloop : clusterLoop [(0, lone)] [(0, lone)] [] [] [] =
          ([0], [], [lone]) := by
        simp only [clusterLoop]
        rw [if_neg (by simp), if_pos (by simp [hl1])]
        have hext : extendCluster [(0, lone)] ([(0, lone)] :
            List (Nat × SPost)).length [lone] ([] ++ [0]) 2 lone =
            ([lone], [0]) := by
          simp [extendCluster, findNext, List.find?]
        rw [hext]
        rw [if_neg (by simp [hlt])]
        simp [clusterLoop]
      unfold mergeAuthorGroup
      rw [hmultip, hsingles0]
      dsimp only
      rw [hsort]
      rw [show List.enum [lone] = [(0, lone)] from by
        simp [List.enum, List.enumFrom]]
      rw [hloop]
      dsimp only
      simp
    unfold mergeMultipartPosts mergeCore
    rw [if_neg (by simp)]
    rw [hocc]
    simp only [List.map_cons, List.map_nil, List.flatten]
    rw [show [lone].filter (fun p => p.author = lone.author) = [lone] from by
      simp]
    rw [hgroup]
    simp [List.insertionSort, List.orderedInsert]
  · intro items c hc
    exact clusterLoop_accepted items items [] [] [] (by simp) c hc

/-- Witness for C6 at a concrete two-part batch plus one non-part post
and a concrete lone part. -/
theorem c6_merge_completeness_witness :
    (tri1.partNum = some 1 ∧ tri1.totalParts = some 2 ∧
      tri2.partNum = some 2 ∧ tri2.author = tri1.author ∧
      (∀ q ∈ [postNoTs], q.partNum = none ∧ q.author = tri1.author) ∧
      timeOk tri1 tri2 = true) ∧
    ((mergeMultipartPosts (fun _ => "H") (tri1 :: tri2 :: [postNoTs])).Perm
        ([postNoTs].map clearTmp ++
          [clearTmp (mergedPair (fun _ => "H") tri1 tri2)]) ∧
      mergeMultipartPosts (fun _ => "H") [tri1] = [clearTmp tri1] ∧
      (∀ (items : List (Nat × SPost)) c,
        c ∈ (clusterLoop items items [] [] []).2.1 →
        c.length > 1 ∧ ∀ t, (c.headD dummyPost).totalParts = some t →
          t ≠ 0 → t ≤ c.length)) :=
  ⟨⟨rfl, rfl, rfl, rfl, by decide, rfl⟩,
    c6_merge_completeness (fun _ => "H") tri1 tri2 [postNoTs] tri1
      rfl rfl rfl rfl (by decide) rfl rfl rfl⟩

/-! ## Fingerprint invariance of the text normalizer (C2) -/

theorem ne_of_pred {p : Char → Bool} {a b : Char} (ha : p a = true)
    (hb : p b = false) : b ≠ a := by
  intro h
  rw [h, ha] at hb
  exact Bool.noConfusion hb

theorem stripCI_eq_some_iff (tok : List Char) : ∀ (s r : List Char),
    stripCI tok s = some r ↔
      tok.length ≤ s.length ∧ (s.take tok.length).map lc = tok ∧
        r = s.drop tok.length := by
  induction tok with
  | nil =>
    intro s r
    simp [stripCI, eq_comm]
  | cons t ts ih =>
    intro s r
    cases s with
    | nil => simp [stripCI]
    | cons c cs =>
      simp only [stripCI, List.length_cons, List.take_succ_cons,
        List.map_cons, List.drop_succ_cons, List.cons.injEq]
      by_cases h : lc c = t
      · rw [if_pos h, ih cs r]
        constructor
        · rintro ⟨h1, h2, h3⟩
          exact ⟨by omega, ⟨h, h2⟩, h3⟩
        · rintro ⟨h1, ⟨_, h2⟩, h3⟩
          exact ⟨by omega, h2, h3⟩
      · rw [if_neg h]
        constructor
        · intro hh
          exact absurd hh (by simp)
        · rintro ⟨_, ⟨hc, _⟩, _⟩
          exact absurd hc h

theorem stripCI_eq_none_of_short {tok s : List Char}
    (h : s.length < tok.length) : stripCI tok s = none := by
  cases hx : stripCI tok s with
  | none => rfl
  | some r =>
    rw [stripCI_eq_some_iff] at hx
    omega

theorem stripCI_append_left {tok x : List Char} (y : List Char)
    (h : tok.length ≤ x.length) :
    stripCI tok (x ++ y) = (stripCI tok x).map (fun r => r ++ y) := by
  cases hx : stripCI tok x with
  | none =>
    show stripCI tok (x ++ y) = none
    cases hxy : stripCI tok (x ++ y) with
    | none => rfl
    | some r =>
      rw [stripCI_eq_some_iff] at hxy
      obtain ⟨h1, h2, h3⟩ := hxy
      rw [List.take_append_eq_append_take,
        show tok.length - x.length = 0 from by omega, List.take_zero,
        List.append_nil] at h2
      have : stripCI tok x = some (x.drop tok.length) := by
        rw [stripCI_eq_some_iff]
        exact ⟨h, h2, rfl⟩
      rw [hx] at this
      exact Option.noConfusion this
  | some r =>
    show stripCI tok (x ++ y) = some (r ++ y)
    rw [stripCI_eq_some_iff] at hx ⊢
    obtain ⟨h1, h2, h3⟩ := hx
    refine ⟨by simp; omega, ?_, ?_⟩
    · rw [List.take_append_eq_append_take,
        show tok.length - x.length = 0 from by omega, List.take_zero,
        List.append_nil]
      exact h2
    · rw [List.drop_append_eq_append_drop,
        show tok.length - x.length = 0 from by omega, List.drop_zero, h3]

theorem stripCI_self {user : List Char} (h : user.map lc = user)
    (x : List Char) : stripCI user (user ++ x) = some x := by
  rw [stripCI_eq_some_iff]
  refine ⟨by simp, ?_, ?_⟩
  · rw [List.take_append_eq_append_take, List.take_of_length_le (le_refl _),
      Nat.sub_self, List.take_zero, List.append_nil]
    exact h
  · rw [List.drop_append_eq_append_drop, Nat.sub_self, List.drop_zero,
      List.drop_of_length_le (le_refl _), List.nil_append]

theorem isDig_toNat {c : Char} (h : isDig c = true) :
    48 ≤ c.toNat ∧ c.toNat ≤ 57 := by
  simp only [isDig, Bool.and_eq_true, decide_eq_true_eq] at h
  obtain ⟨h1, h2⟩ := h
  exact ⟨h1, h2⟩

theorem lc_eq_self_of_toNat {c : Char} (h : c.toNat < 65 ∨ 90 < c.toNat) :
    lc c = c := by
  unfold lc Char.toLower
  rw [if_neg (by omega)]

theorem isDig_lc {c : Char} (h : isDig c = true) : lc c = c :=
  lc_eq_self_of_toNat (Or.inl (by have := isDig_toNat h; omega))

theorem isDig_not_alpha {c : Char} (h : isDig c = true) :
    c.isAlpha = false := by
  have hb := isDig_toNat h
  simp only [Char.isAlpha, Char.isUpper, Char.isLower, Bool.or_eq_false_iff,
    Bool.and_eq_false_iff]
  constructor
  · left
    simp only [ge_iff_le, decide_eq_false_iff_not]
    intro hle
    have hn : (65 : Nat) ≤ c.toNat := hle
    omega
  · left
    simp only [ge_iff_le, decide_eq_false_iff_not]
    intro hle
    have hn : (97 : Nat) ≤ c.toNat := hle
    omega

theorem isDig_not_spc {c : Char} (h : isDig c = true) : isSpc c = false := by
  have hb := isDig_toNat h
  simp only [isSpc, decide_eq_false_iff_not, not_or]
  refine ⟨?_, ?_, ?_, ?_, ?_, ?_⟩ <;>
    · intro he
      subst he
      simp at hb

theorem stripCI_append_split {tok s y r : List Char}
    (h : stripCI tok (s ++ y) = some r) (hlen : s.length < tok.length) :
    s.map lc = tok.take s.length ∧
      stripCI (tok.drop s.length) y =
        some (y.drop (tok.length - s.length)) := by
  rw [stripCI_eq_some_iff] at h
  obtain ⟨h1, h2, h3⟩ := h
  rw [List.length_append] at h1
  rw [List.take_append_eq_append_take,
    List.take_of_length_le (le_of_lt hlen), List.map_append] at h2
  have hmap : s.map lc = tok.take s.length := by
    have hcg := congrArg (List.take s.length) h2
    rw [List.take_left' (List.length_map s lc)] at hcg
    exact hcg
  have hdrop : tok.drop s.length = (y.take (tok.length - s.length)).map lc := by
    have hcg := congrArg (List.drop s.length) h2
    rw [List.drop_left' (List.length_map s lc)] at hcg
    exact hcg.symm
  refine ⟨hmap, ?_⟩
  rw [stripCI_eq_some_iff]
  refine ⟨?_, ?_, ?_⟩
  · rw [List.length_drop]
    omega
  · rw [List.length_drop]
    exact hdrop.symm
  · rw [List.length_drop]

theorem noOcc_of_occursCI {tok s : List Char} (htok : tok ≠ [])
    (h : occursCI tok s = false) : noOcc tok s := by
  intro p
  by_cases hp : p ≤ s.length
  · cases hcase : stripCI tok (s.drop p) with
    | none => rfl
    | some r =>
      exfalso
      have hmem : p ∈ List.range (s.length + 1) := List.mem_range.mpr (by omega)
      have htrue : occursCI tok s = true := by
        unfold occursCI
        exact List.any_eq_true.mpr ⟨p, hmem, by rw [hcase]; rfl⟩
      rw [h] at htrue
      exact Bool.noConfusion htrue
  · rw [List.drop_eq_nil_of_le (by omega)]
    cases tok with
    | nil => exact absurd rfl htok
    | cons t ts => rfl

theorem noOcc_append {tok x y : List Char} (hx : noPreMatch tok x y)
    (hy : noOcc tok y) : noOcc tok (x ++ y) := by
  intro p
  rw [List.drop_append_eq_append_drop]
  by_cases hp : p < x.length
  · rw [show p - x.length = 0 from by omega, List.drop_zero]
    exact hx p hp
  · rw [List.drop_eq_nil_of_le (show x.length ≤ p from by omega),
      List.nil_append]
    exact hy (p - x.length)

theorem noPreMatch_of_head {t : Char} {ts x y : List Char}
    (h : ∀ c ∈ x, lc c ≠ t) : noPreMatch (t :: ts) x y := by
  intro p hp
  cases hd : x.drop p with
  | nil =>
    have := congrArg List.length hd
    rw [List.length_drop] at this
    simp at this
    omega
  | cons c cs =>
    have hc : c ∈ x := List.drop_subset p x (hd ▸ List.mem_cons_self c cs)
    rw [List.cons_append]
    show stripCI (t :: ts) (c :: (cs ++ y)) = none
    simp only [stripCI]
    rw [if_neg (h c hc)]

theorem noPreMatch_of_cross {tok x y : List Char} (hx : noOcc tok x)
    (hcross : ∀ k, 0 < k → k < tok.length → stripCI (tok.drop k) y = none) :
    noPreMatch tok x y := by
  intro p hp
  by_cases hlen : tok.length ≤ (x.drop p).length
  · rw [stripCI_append_left y hlen, hx p]
    rfl
  · cases hres : stripCI tok (x.drop p ++ y) with
    | none => rfl
    | some r =>
      exfalso
      have hsl : (x.drop p).length < tok.length := by omega
      have hs0 : 0 < (x.drop p).length := by
        rw [List.length_drop]
        omega
      obtain ⟨_, hcont⟩ := stripCI_append_split hres hsl
      rw [hcross (x.drop p).length hs0 hsl] at hcont
      exact Option.noConfusion hcont

theorem noPreMatch_of_preDead {tok x : List Char}
    (h : preDeadB tok x = true) (y : List Char) : noPreMatch tok x y := by
  intro p hp
  have hmem := List.all_eq_true.mp h p (List.mem_range.mpr hp)
  simp only at hmem
  by_cases hlen : tok.length ≤ x.length - p
  · rw [if_pos hlen] at hmem
    have hnone : stripCI tok (x.drop p) = none := by
      cases hcase : stripCI tok (x.drop p) with
      | none => rfl
      | some r => rw [hcase] at hmem; exact Bool.noConfusion hmem
    rw [stripCI_append_left y (by rw [List.length_drop]; omega), hnone]
    rfl
  · rw [if_neg hlen] at hmem
    have hne : stripCI (tok.take (x.length - p)) (x.drop p) ≠ some [] := by
      simpa using hmem
    cases hres : stripCI tok (x.drop p ++ y) with
    | none => rfl
    | some r =>
      exfalso
      have hsl : (x.drop p).length < tok.length := by
        rw [List.length_drop]
        omega
      obtain ⟨hmap, _⟩ := stripCI_append_split hres hsl
      apply hne
      rw [stripCI_eq_some_iff]
      have hlt : (tok.take (x.length - p)).length = (x.drop p).length := by
        rw [List.length_take, List.length_drop]
        omega
      have hmap2 : List.map lc (x.drop p) = tok.take (x.length - p) := by
        rw [hmap, List.length_drop]
      refine ⟨le_of_eq hlt, ?_, ?_⟩
      · rw [hlt, List.take_length]
        exact hmap2
      · rw [hlt, List.drop_length]

theorem crossDead_exact {tok g : List Char} (hcd : crossDeadB tok g = true) :
    ∀ k, 0 < k → k < tok.length → stripCI (tok.drop k) g = none := by
  intro k hk0 hk
  have hmem := List.all_eq_true.mp hcd k (List.mem_range.mpr hk)
  simp only [Bool.or_eq_true, decide_eq_true_eq, Option.isNone_iff_eq_none]
    at hmem
  rcases hmem with h | h
  · omega
  · exact h

theorem crossDead_concrete {tok g : List Char} (hcd : crossDeadB tok g = true)
    (hg : tok.length ≤ g.length + 1) (z : List Char) :
    ∀ k, 0 < k → k < tok.length → stripCI (tok.drop k) (g ++ z) = none := by
  intro k hk0 hk
  rw [stripCI_append_left z (by rw [List.length_drop]; omega),
    crossDead_exact hcd k hk0 hk]
  rfl

theorem crossDead_digit {tok : List Char} (htok : noDigits tok = true)
    {c : Char} (hc : isDig c = true) (z : List Char) :
    ∀ k, k < tok.length → stripCI (tok.drop k) (c :: z) = none := by
  intro k hk
  cases hd : tok.drop k with
  | nil =>
    have := congrArg List.length hd
    rw [List.length_drop] at this
    simp at this
    omega
  | cons d ds =>
    have hdmem : d ∈ tok := List.drop_subset k tok (hd ▸ List.mem_cons_self d ds)
    have hdd : isDig d = false := by
      have := List.all_eq_true.mp htok d hdmem
      simpa using this
    show stripCI (d :: ds) (c :: z) = none
    simp only [stripCI]
    rw [if_neg]
    rw [isDig_lc hc]
    exact Ne.symm (ne_of_pred hc hdd)

theorem noOcc_of_head {t : Char} {ts s : List Char}
    (h : ∀ c ∈ s, lc c ≠ t) : noOcc (t :: ts) s := by
  intro p
  cases hd : s.drop p with
  | nil => rfl
  | cons c cs =>
    have hc : c ∈ s := List.drop_subset p s (hd ▸ List.mem_cons_self c cs)
    simp only [stripCI]
    rw [if_neg (h c hc)]

theorem lc_ne_of_dig {t c : Char} (ht : isDig t = false)
    (hc : isDig c = true) : lc c ≠ t := by
  rw [isDig_lc hc]
  exact Ne.symm (ne_of_pred hc ht)

theorem noPreMatch_digits {t : Char} {ts x : List Char}
    (hx : x.all isDig = true) (ht : isDig t = false) (y : List Char) :
    noPreMatch (t :: ts) x y :=
  noPreMatch_of_head fun c hc => lc_ne_of_dig ht (List.all_eq_true.mp hx c hc)

theorem noOcc_digits {t : Char} {ts x : List Char}
    (hx : x.all isDig = true) (ht : isDig t = false) : noOcc (t :: ts) x :=
  noOcc_of_head fun c hc => lc_ne_of_dig ht (List.all_eq_true.mp hx c hc)

theorem dropWhile_append_of_all {p : Char → Bool} {x : List Char}
    (y : List Char) (h : x.all p = true) :
    (x ++ y).dropWhile p = y.dropWhile p := by
  induction x with
  | nil => rfl
  | cons c cs ih =>
    rw [List.all_cons, Bool.and_eq_true] at h
    rw [List.cons_append, List.dropWhile_cons, if_pos h.1]
    exact ih h.2

theorem dropWhile_cons_of_neg {p : Char → Bool} {c : Char} {cs : List Char}
    (h : p c = false) : (c :: cs).dropWhile p = c :: cs := by
  rw [List.dropWhile_cons, if_neg (by rw [h]; exact Bool.noConfusion)]

theorem takeWhile_append_of_all_neg {p : Char → Bool} {T : List Char}
    {u : Char} (w : List Char) (hT : T.all p = true) (hu : p u = false) :
    (T ++ u :: w).takeWhile p = T := by
  induction T with
  | nil =>
    rw [List.nil_append, List.takeWhile_cons,
      if_neg (by rw [hu]; exact Bool.noConfusion)]
  | cons c cs ih =>
    rw [List.all_cons, Bool.and_eq_true] at hT
    rw [List.cons_append, List.takeWhile_cons, if_pos hT.1, ih hT.2]

theorem takeWhile_nil_noDigits {s : List Char} (h : noDigits s = true) :
    s.takeWhile isDig = [] := by
  cases s with
  | nil => rfl
  | cons c cs =>
    rw [noDigits, List.all_cons, Bool.and_eq_true] at h
    rw [List.takeWhile_cons, if_neg]
    rw [Bool.not_eq_true'] at h
    rw [h.1]
    exact Bool.noConfusion

theorem noDigits_drop {s : List Char} (h : noDigits s = true) (n : Nat) :
    noDigits (s.drop n) = true := by
  rw [noDigits, List.all_eq_true] at h ⊢
  exact fun c hc => h c (List.drop_subset n s hc)

theorem noDigits_append {x y : List Char} (hx : noDigits x = true)
    (hy : noDigits y = true) : noDigits (x ++ y) = true := by
  rw [noDigits, List.all_append]
  rw [noDigits] at hx hy
  rw [hx, hy]
  rfl

theorem isAlpha_not_dig {c : Char} (h : c.isAlpha = true) : isDig c = false := by
  cases hd : isDig c with
  | false => rfl
  | true => rw [isDig_not_alpha hd] at h; exact Bool.noConfusion h

theorem alphaSpace_not_dig {c : Char} (h : alphaSpace c = true) :
    isDig c = false := by
  rw [alphaSpace, Bool.or_eq_true] at h
  rcases h with h | h
  · exact isAlpha_not_dig h
  · rw [decide_eq_true_eq] at h
    subst h
    decide

theorem noDigits_of_alphaSpace {B : List Char} (h : B.all alphaSpace = true) :
    noDigits B = true := by
  rw [noDigits, List.all_eq_true]
  intro c hc
  rw [alphaSpace_not_dig (List.all_eq_true.mp h c hc)]
  rfl

theorem mTokSp_none {tok s : List Char} (h : stripCI tok s = none) :
    mTokSp tok s = none := by
  rw [mTokSp, h]
  rfl

theorem mTokSpDig_none {tok s : List Char} (h : stripCI tok s = none) :
    mTokSpDig tok s = none := by
  rw [mTokSpDig, h]
  rfl

theorem mFollowUser_none {user s : List Char}
    (hf : stripCI followTok s = none) (hu : stripCI user s = none) :
    mFollowUser user s = none := by
  rw [mFollowUser, hf, hu]
  rfl

theorem mEditedMore_none {s : List Char} (h : stripCI editedTok s = none) :
    mEditedMore s = none := by
  rw [mEditedMore, h]

theorem mRelTime_none_noDigits {s : List Char} (h : noDigits s = true) :
    mRelTime s = none := by
  rw [mRelTime, takeWhile_nil_noDigits h]
  rfl

theorem mPartSlash_none_noDigits (pv : Bool) {s : List Char}
    (h : noDigits s = true) : mPartSlash pv s = none := by
  rw [mPartSlash]
  cases pv with
  | true => rfl
  | false =>
    rw [if_neg (by exact Bool.noConfusion)]
    rw [takeWhile_nil_noDigits h]
    rfl

theorem mPartWord_none_noDigits (pv : Bool) {s : List Char}
    (h : noDigits s = true) : mPartWord pv s = none := by
  rw [mPartWord]
  cases pv with
  | true => rfl
  | false =>
    rw [if_neg (by exact Bool.noConfusion)]
    have htail : ∀ r : List Char, noDigits r = true →
        (if 1 ≤ (r.takeWhile isSpc).length then
          if 1 ≤ ((r.drop (r.takeWhile isSpc).length).takeWhile isDig).length
          then some ((r.drop (r.takeWhile isSpc).length).drop
            ((r.drop (r.takeWhile isSpc).length).takeWhile isDig).length)
          else none
         else none) = (none : Option (List Char)) := by
      intro r hr
      by_cases hsp : 1 ≤ (r.takeWhile isSpc).length
      · rw [if_pos hsp, takeWhile_nil_noDigits (noDigits_drop hr _)]
        rw [if_neg (by simp)]
      · rw [if_neg hsp]
    cases hpart : stripCI "part".toList s with
    | some r =>
      simp only [hpart]
      obtain ⟨-, -, h3⟩ := (stripCI_eq_some_iff _ _ _).mp hpart
      subst h3
      exact htail _ (noDigits_drop h _)
    | none =>
      simp only [hpart]
      cases hday : stripCI "day".toList s with
      | some r =>
        simp only
        obtain ⟨-, -, h3⟩ := (stripCI_eq_some_iff _ _ _).mp hday
        subst h3
        exact htail _ (noDigits_drop h _)
      | none => simp only

theorem scanSF_id {M : List Char → Option (List Char)} :
    ∀ (f : Nat) (s : List Char), (∀ p, M (s.drop p) = none) →
      s.length ≤ f → scanSF M f s = s := by
  intro f
  induction f with
  | zero =>
    intro s h hf
    rw [List.eq_nil_of_length_eq_zero (show s.length = 0 by omega)]
    rfl
  | succ f0 ih =>
    intro s h hf
    cases s with
    | nil => rfl
    | cons c cs =>
      have h0 : M (c :: cs) = none := by
        have := h 0
        rwa [List.drop_zero] at this
      show scanSF M (f0 + 1) (c :: cs) = c :: cs
      simp only [scanSF, h0]
      rw [ih cs (fun p => by
        have := h (p + 1)
        rwa [List.drop_succ_cons] at this) (by
        rw [List.length_cons] at hf
        omega)]

theorem scanS_id {M : List Char → Option (List Char)} {s : List Char}
    (h : ∀ p, M (s.drop p) = none) : scanS M s = s :=
  scanSF_id s.length s h (le_refl _)

theorem scanSF_split {M : List Char → Option (List Char)} {m b : List Char}
    (hm : M (m ++ b) = some b) (hm0 : m ≠ [])
    (hb : ∀ p, M (b.drop p) = none) :
    ∀ (a : List Char),
      (∀ p, p < a.length → M (a.drop p ++ (m ++ b)) = none) →
      ∀ f, (a ++ (m ++ b)).length ≤ f →
        scanSF M f (a ++ (m ++ b)) = a ++ b := by
  intro a
  induction a with
  | nil =>
    intro _ f hf
    simp only [List.nil_append] at hf ⊢
    cases m with
    | nil => exact absurd rfl hm0
    | cons c m0 =>
      cases f with
      | zero =>
        rw [List.cons_append, List.length_cons] at hf
        omega
      | succ f0 =>
        have hm2 : M (c :: (m0 ++ b)) = some b := by
          rw [← List.cons_append]
          exact hm
        rw [List.cons_append]
        simp only [scanSF, hm2]
        rw [if_pos (by rw [List.length_append]; omega)]
        exact scanSF_id f0 b hb (by
          rw [List.cons_append, List.length_cons, List.length_append] at hf
          omega)
  | cons x a0 ih =>
    intro hA f hf
    cases f with
    | zero =>
      rw [List.cons_append, List.length_cons] at hf
      omega
    | succ f0 =>
      have h0 : M (x :: (a0 ++ (m ++ b))) = none := by
        have := hA 0 (by rw [List.length_cons]; omega)
        rwa [List.drop_zero, List.cons_append] at this
      rw [List.cons_append]
      simp only [scanSF, h0]
      rw [ih (fun p hp => by
          have := hA (p + 1) (by rw [List.length_cons]; omega)
          rwa [List.drop_succ_cons] at this) f0 (by
          rw [List.cons_append, List.length_cons] at hf
          omega)]
      rw [List.cons_append]

theorem scanS_split {M : List Char → Option (List Char)} {a m b : List Char}
    (hA : ∀ p, p < a.length → M (a.drop p ++ (m ++ b)) = none)
    (hm : M (m ++ b) = some b) (hm0 : m ≠ [])
    (hb : ∀ p, M (b.drop p) = none) :
    scanS M (a ++ (m ++ b)) = a ++ b :=
  scanSF_split hm hm0 hb a hA _ (le_refl _)

theorem scanPF_id {M : Bool → List Char → Option (List Char)}
    {pb : Char → Bool} :
    ∀ (f : Nat) (s : List Char),
      (∀ (v : Bool) p, M v (s.drop p) = none) → s.length ≤ f →
      ∀ v, scanPF M pb f v s = s := by
  intro f
  induction f with
  | zero =>
    intro s h hf v
    rw [List.eq_nil_of_length_eq_zero (show s.length = 0 by omega)]
    rfl
  | succ f0 ih =>
    intro s h hf v
    cases s with
    | nil => rfl
    | cons c cs =>
      have h0 : M v (c :: cs) = none := by
        have := h v 0
        rwa [List.drop_zero] at this
      show scanPF M pb (f0 + 1) v (c :: cs) = c :: cs
      simp only [scanPF, h0]
      rw [ih cs (fun w p => by
        have := h w (p + 1)
        rwa [List.drop_succ_cons] at this) (by
        rw [List.length_cons] at hf
        omega) (pb c)]

theorem scanP_id {M : Bool → List Char → Option (List Char)}
    {pb : Char → Bool} {s : List Char}
    (h : ∀ (v : Bool) p, M v (s.drop p) = none) (v : Bool) :
    scanP M pb v s = s :=
  scanPF_id s.length s h (le_refl _) v

theorem noOcc_digits2 {tok x : List Char} (htok : noDigits tok = true)
    (htok0 : tok ≠ []) (hx : x.all isDig = true) : noOcc tok x := by
  cases tok with
  | nil => exact absurd rfl htok0
  | cons t ts =>
    rw [noDigits, List.all_cons, Bool.and_eq_true] at htok
    refine noOcc_digits hx ?_
    rw [Bool.not_eq_true'] at htok
    exact htok.1

theorem noPreMatch_digits2 {tok x : List Char} (htok : noDigits tok = true)
    (htok0 : tok ≠ []) (hx : x.all isDig = true) (y : List Char) :
    noPreMatch tok x y := by
  cases tok with
  | nil => exact absurd rfl htok0
  | cons t ts =>
    rw [noDigits, List.all_cons, Bool.and_eq_true] at htok
    refine noPreMatch_digits hx ?_ y
    rw [Bool.not_eq_true'] at htok
    exact htok.1

theorem lc_unit_mem {u : Char} (hu : unitOK u = true) :
    lc u = 'h' ∨ lc u = 'd' ∨ lc u = 'w' ∨ lc u = 'm' := by
  rw [unitOK, hdwm] at hu
  have hm := List.mem_of_elem_eq_true hu
  simp only [List.mem_cons, List.not_mem_nil, or_false] at hm
  tauto

theorem unit_not_dig {u : Char} (hu : unitOK u = true) : isDig u = false := by
  cases hd : isDig u with
  | false => rfl
  | true =>
    exfalso
    rcases lc_unit_mem hu with h | h | h | h <;>
      · rw [isDig_lc hd] at h
        subst h
        exact Bool.noConfusion hd

theorem noPreMatch_unit {t : Char} {ts : List Char} {u : Char}
    (hu : unitOK u = true) (hh : t ≠ 'h') (hd : t ≠ 'd') (hw : t ≠ 'w')
    (hm : t ≠ 'm') (y : List Char) : noPreMatch (t :: ts) [u] y := by
  refine noPreMatch_of_head fun c hc => ?_
  rcases List.mem_singleton.mp hc with rfl
  rcases lc_unit_mem hu with h | h | h | h <;>
    · rw [h]
      first
      | exact Ne.symm hh
      | exact Ne.symm hd
      | exact Ne.symm hw
      | exact Ne.symm hm

theorem noPreMatch_unit2 {tok : List Char} {u : Char} (hu : unitOK u = true)
    (h1 : tok ≠ []) (h2 : tok.headD ' ' ≠ 'h') (h3 : tok.headD ' ' ≠ 'd')
    (h4 : tok.headD ' ' ≠ 'w') (h5 : tok.headD ' ' ≠ 'm') (y : List Char) :
    noPreMatch tok [u] y := by
  cases tok with
  | nil => exact absurd rfl h1
  | cons t ts =>
    exact noPreMatch_unit hu (by simpa using h2) (by simpa using h3)
      (by simpa using h4) (by simpa using h5) y

theorem crossDead_digit_head {tok : List Char} (htok : noDigits tok = true)
    {T : List Char} (hT : T.all isDig = true) (hT0 : T ≠ []) (z : List Char) :
    ∀ k, k < tok.length → stripCI (tok.drop k) (T ++ z) = none := by
  cases T with
  | nil => exact absurd rfl hT0
  | cons t0 T2 =>
    rw [List.all_cons, Bool.and_eq_true] at hT
    intro k hk
    rw [List.cons_append]
    exact crossDead_digit htok hT.1 _ k hk

theorem noOcc_counterTail {tok : List Char} (htokD : noDigits tok = true)
    (htok0 : tok ≠ [])
    (hRY : preDeadB tok " Reply ".toList = true)
    (hRP : preDeadB tok " Repost ".toList = true)
    (hSH : preDeadB tok " Share ".toList = true)
    {L R P S : List Char} (hL : L.all isDig = true) (hR : R.all isDig = true)
    (hP : P.all isDig = true) (hS : S.all isDig = true) :
    noOcc tok (L ++ (" Reply ".toList ++ (R ++ (" Repost ".toList ++
      (P ++ (" Share ".toList ++ S)))))) := by
  refine noOcc_append (noPreMatch_digits2 htokD htok0 hL _) ?_
  refine noOcc_append (noPreMatch_of_preDead hRY _) ?_
  refine noOcc_append (noPreMatch_digits2 htokD htok0 hR _) ?_
  refine noOcc_append (noPreMatch_of_preDead hRP _) ?_
  refine noOcc_append (noPreMatch_digits2 htokD htok0 hP _) ?_
  refine noOcc_append (noPreMatch_of_preDead hSH _) ?_
  exact noOcc_digits2 htokD htok0 hS

theorem noOcc_s0_chrome {tok : List Char} {U T B L R P S : List Char}
    {u : Char} (htokD : noDigits tok = true) (htok0 : tok ≠ [])
    (hU : noOcc tok (U ++ [' ']))
    (hT : T.all isDig = true) (hT0 : T ≠ []) (hu : unitOK u = true)
    (hM : preDeadB tok " More ".toList = true)
    (hB : noOcc tok B)
    (hTL : crossDeadB tok " Translate Like ".toList = true)
    (hTLlen : tok.length ≤ " Translate Like ".toList.length + 1)
    (hTLpre : preDeadB tok " Translate Like ".toList = true)
    (hh2 : tok.headD ' ' ≠ 'h') (hh3 : tok.headD ' ' ≠ 'd')
    (hh4 : tok.headD ' ' ≠ 'w') (hh5 : tok.headD ' ' ≠ 'm')
    (hRY : preDeadB tok " Reply ".toList = true)
    (hRP : preDeadB tok " Repost ".toList = true)
    (hSH : preDeadB tok " Share ".toList = true)
    (hL : L.all isDig = true) (hR : R.all isDig = true)
    (hP : P.all isDig = true) (hS : S.all isDig = true) :
    noOcc tok ((U ++ [' ']) ++ (T ++ ([u] ++ (" More ".toList ++ (B ++
      (" Translate Like ".toList ++ (L ++ (" Reply ".toList ++ (R ++
      (" Repost ".toList ++ (P ++ (" Share ".toList ++ S)))))))))))) := by
  refine noOcc_append (noPreMatch_of_cross hU ?_) ?_
  · intro k hk0 hk
    exact crossDead_digit_head htokD hT hT0 _ k hk
  refine noOcc_append (noPreMatch_digits2 htokD htok0 hT _) ?_
  refine noOcc_append (noPreMatch_unit2 hu htok0 hh2 hh3 hh4 hh5 _) ?_
  refine noOcc_append (noPreMatch_of_preDead hM _) ?_
  refine noOcc_append (noPreMatch_of_cross hB ?_) ?_
  · exact crossDead_concrete hTL hTLlen _
  refine noOcc_append (noPreMatch_of_preDead hTLpre _) ?_
  exact noOcc_counterTail htokD htok0 hRY hRP hSH hL hR hP hS

theorem pass1_audio {U T B L R P S : List Char} {u : Char}
    (hU : noOcc audioTok (U ++ [' ']))
    (hT : T.all isDig = true) (hT0 : T ≠ []) (hu : unitOK u = true)
    (hB : noOcc audioTok B)
    (hL : L.all isDig = true) (hR : R.all isDig = true)
    (hP : P.all isDig = true) (hS : S.all isDig = true) :
    scanS (mTokSp audioTok) ((U ++ [' ']) ++ (T ++ ([u] ++
      (" More ".toList ++ (B ++ (" Translate Like ".toList ++ (L ++
      (" Reply ".toList ++ (R ++ (" Repost ".toList ++ (P ++
      (" Share ".toList ++ S)))))))))))) =
    (U ++ [' ']) ++ (T ++ ([u] ++ (" More ".toList ++ (B ++
      (" Translate Like ".toList ++ (L ++ (" Reply ".toList ++ (R ++
      (" Repost ".toList ++ (P ++ (" Share ".toList ++ S))))))))))) := by
  refine scanS_id fun p => mTokSp_none ?_
  exact noOcc_s0_chrome (by decide) (by decide) hU hT hT0 hu (by decide) hB
    (by decide) (by decide) (by decide) (by decide) (by decide) (by decide)
    (by decide) (by decide) (by decide) (by decide) hL hR hP hS p

theorem noPreMatch_append {tok x y z : List Char}
    (hx : noPreMatch tok x (y ++ z)) (hy : noPreMatch tok y z) :
    noPreMatch tok (x ++ y) z := by
  intro p hp
  rw [List.drop_append_eq_append_drop]
  by_cases hpx : p < x.length
  · rw [show p - x.length = 0 from by omega, List.drop_zero,
      List.append_assoc]
    exact hx p hpx
  · rw [List.drop_eq_nil_of_le (show x.length ≤ p from by omega),
      List.nil_append]
    refine hy (p - x.length) ?_
    rw [List.length_append] at hp
    omega

theorem crossDead_spc {tok : List Char} (htok : tok.all Char.isAlpha = true)
    (z : List Char) :
    ∀ k, k < tok.length → stripCI (tok.drop k) (' ' :: z) = none := by
  intro k hk
  cases hd : tok.drop k with
  | nil =>
    have := congrArg List.length hd
    rw [List.length_drop] at this
    simp at this
    omega
  | cons d ds =>
    have hdmem : d ∈ tok := List.drop_subset k tok (hd ▸ List.mem_cons_self d ds)
    have hda : d.isAlpha = true := List.all_eq_true.mp htok d hdmem
    show stripCI (d :: ds) (' ' :: z) = none
    simp only [stripCI]
    rw [if_neg]
    show ¬ lc ' ' = d
    show ¬ ' ' = d
    exact ne_of_pred hda (by decide)

theorem noPreMatch_a2 {tok U T B : List Char} {u : Char}
    (htokA : tok.all Char.isAlpha = true) (htokD : noDigits tok = true)
    (htok0 : tok ≠ [])
    (hU : noOcc tok (U ++ [' ']))
    (hT : T.all isDig = true) (hT0 : T ≠ []) (hu : unitOK u = true)
    (hM : preDeadB tok " More ".toList = true)
    (hB : noOcc tok B)
    (hSp : preDeadB tok [' '] = true)
    (hh2 : tok.headD ' ' ≠ 'h') (hh3 : tok.headD ' ' ≠ 'd')
    (hh4 : tok.headD ' ' ≠ 'w') (hh5 : tok.headD ' ' ≠ 'm')
    (z : List Char) :
    noPreMatch tok ((U ++ [' ']) ++ (T ++ ([u] ++ (" More ".toList ++
      (B ++ [' ']))))) z := by
  refine noPreMatch_append (noPreMatch_of_cross hU ?_) ?_
  · intro k hk0 hk
    rw [List.append_assoc]
    exact crossDead_digit_head htokD hT hT0 _ k hk
  refine noPreMatch_append (noPreMatch_digits2 htokD htok0 hT _) ?_
  refine noPreMatch_append (noPreMatch_unit2 hu htok0 hh2 hh3 hh4 hh5 _) ?_
  refine noPreMatch_append (noPreMatch_of_preDead hM _) ?_
  refine noPreMatch_append (noPreMatch_of_cross hB ?_)
    (noPreMatch_of_preDead hSp _)
  · intro k hk0 hk
    exact crossDead_spc htokA _ k hk

theorem pass2_translate {U T B L R P S : List Char} {u : Char}
    (hU : noOcc translateTok (U ++ [' ']))
    (hT : T.all isDig = true) (hT0 : T ≠ []) (hu : unitOK u = true)
    (hB : noOcc translateTok B)
    (hL : L.all isDig = true) (hR : R.all isDig = true)
    (hP : P.all isDig = true) (hS : S.all isDig = true) :
    scanS (mTokSp translateTok) ((U ++ [' ']) ++ (T ++ ([u] ++
      (" More ".toList ++ (B ++ (" Translate Like ".toList ++ (L ++
      (" Reply ".toList ++ (R ++ (" Repost ".toList ++ (P ++
      (" Share ".toList ++ S)))))))))))) =
    (U ++ [' ']) ++ (T ++ ([u] ++ (" More ".toList ++ (B ++
      (" Like ".toList ++ (L ++ (" Reply ".toList ++ (R ++
      (" Repost ".toList ++ (P ++ (" Share ".toList ++ S))))))))))) := by
  have hb2 : noOcc translateTok ("Like ".toList ++ (L ++
      (" Reply ".toList ++ (R ++ (" Repost ".toList ++ (P ++
      (" Share ".toList ++ S))))))) := by
    refine noOcc_append (noPreMatch_of_preDead (by decide) _) ?_
    exact noOcc_counterTail (by decide) (by decide) (by decide) (by decide)
      (by decide) hL hR hP hS
  have hshape : (U ++ [' ']) ++ (T ++ ([u] ++ (" More ".toList ++ (B ++
      (" Translate Like ".toList ++ (L ++ (" Reply ".toList ++ (R ++
      (" Repost ".toList ++ (P ++ (" Share ".toList ++ S)))))))))))
      = ((U ++ [' ']) ++ (T ++ ([u] ++ (" More ".toList ++ (B ++ [' ']))))) ++
        ("Translate ".toList ++ ("Like ".toList ++ (L ++
        (" Reply ".toList ++ (R ++ (" Repost ".toList ++ (P ++
        (" Share ".toList ++ S)))))))) := by
    rw [show (" Translate Like ".toList : List Char) =
      [' '] ++ ("Translate ".toList ++ "Like ".toList) from by decide]
    simp only [List.append_assoc]
  rw [hshape]
  rw [scanS_split ?hA ?hm (by decide) ?hb]
  case hA =>
    intro p hp
    exact mTokSp_none (noPreMatch_a2 (by decide) (by decide) (by decide) hU
      hT hT0 hu (by decide) hB (by decide) (by decide) (by decide) (by decide)
      (by decide) _ p hp)
  case hm =>
    rw [mTokSp, stripCI_append_left _ (by decide),
      show stripCI translateTok "Translate ".toList = some [' '] from by decide]
    show some (([' '] ++ ("Like ".toList ++ _)).dropWhile isSpc) = _
    rw [show ∀ w : List Char, ([' '] ++ ("Like ".toList ++ w)).dropWhile isSpc
      = "Like ".toList ++ w from fun w => by
        rw [List.singleton_append, List.dropWhile_cons, if_pos (by decide)]
        exact dropWhile_cons_of_neg (by decide)]
  case hb =>
    exact fun p => mTokSp_none (hb2 p)
  simp only [List.append_assoc]
  rw [show (" Like ".toList : List Char) = [' '] ++ "Like ".toList from
    by decide]
  simp only [List.append_assoc]

theorem noDigits_of_alpha {U : List Char} (h : U.all Char.isAlpha = true) :
    noDigits U = true := by
  rw [noDigits, List.all_eq_true]
  intro c hc
  rw [isAlpha_not_dig (List.all_eq_true.mp h c hc)]
  rfl

theorem noPreMatch_user_unit {U : List Char} {u : Char}
    (hU0 : U ≠ []) (hUalpha : U.all Char.isAlpha = true)
    (hne1 : U ≠ ['h']) (hne2 : U ≠ ['d']) (hne3 : U ≠ ['w'])
    (hne4 : U ≠ ['m']) (hu : unitOK u = true) (z : List Char) :
    noPreMatch U [u] (' ' :: z) := by
  intro p hp
  simp only [List.length_singleton] at hp
  have hp0 : p = 0 := by omega
  subst hp0
  show stripCI U (u :: ' ' :: z) = none
  cases U with
  | nil => exact absurd rfl hU0
  | cons c1 Urest =>
    cases Urest with
    | nil =>
      show stripCI [c1] (u :: ' ' :: z) = none
      simp only [stripCI]
      rw [if_neg]
      intro he
      rcases lc_unit_mem hu with h | h | h | h <;>
        · have hc : c1 = _ := he.symm.trans h
          subst hc
          first
          | exact hne1 rfl
          | exact hne2 rfl
          | exact hne3 rfl
          | exact hne4 rfl
    | cons c2 Urest2 =>
      have hc2 : c2.isAlpha = true :=
        List.all_eq_true.mp hUalpha c2 (by simp)
      show stripCI (c1 :: c2 :: Urest2) (u :: ' ' :: z) = none
      simp only [stripCI]
      by_cases h1 : lc u = c1
      · rw [if_pos h1, if_neg]
        show ¬ lc ' ' = c2
        show ¬ ' ' = c2
        exact ne_of_pred hc2 (by decide)
      · rw [if_neg h1]

theorem dropWhile_spc_digits {T : List Char} (hT : T.all isDig = true)
    (hT0 : T ≠ []) (z : List Char) :
    (' ' :: (T ++ z)).dropWhile isSpc = T ++ z := by
  cases T with
  | nil => exact absurd rfl hT0
  | cons t0 T2 =>
    rw [List.all_cons, Bool.and_eq_true] at hT
    rw [List.dropWhile_cons, if_pos (by decide), List.cons_append]
    exact dropWhile_cons_of_neg (isDig_not_spc hT.1)

theorem pass3_user {U T B L R P S : List Char} {u : Char}
    (hU0 : U ≠ []) (hUlc : U.map lc = U)
    (hUalpha : U.all Char.isAlpha = true)
    (hne1 : U ≠ ['h']) (hne2 : U ≠ ['d']) (hne3 : U ≠ ['w'])
    (hne4 : U ≠ ['m'])
    (hUfollow : noOcc followTok (U ++ [' ']))
    (hBfollow : noOcc followTok B)
    (hUmblk : noOcc U (" More ".toList ++ (B ++ " Like ".toList)))
    (hURY : noOcc U " Reply ".toList) (hURP : noOcc U " Repost ".toList)
    (hUSH : noOcc U " Share ".toList)
    (hT : T.all isDig = true) (hT0 : T ≠ []) (hu : unitOK u = true)
    (hL : L.all isDig = true) (hL0 : L ≠ [])
    (hR : R.all isDig = true) (hR0 : R ≠ [])
    (hP : P.all isDig = true) (hP0 : P ≠ [])
    (hS : S.all isDig = true) (hS0 : S ≠ []) :
    scanS (mFollowUser U) ((U ++ [' ']) ++ (T ++ ([u] ++
      (" More ".toList ++ (B ++ (" Like ".toList ++ (L ++
      (" Reply ".toList ++ (R ++ (" Repost ".toList ++ (P ++
      (" Share ".toList ++ S)))))))))))) =
    T ++ ([u] ++ (" More ".toList ++ (B ++ (" Like ".toList ++ (L ++
      (" Reply ".toList ++ (R ++ (" Repost ".toList ++ (P ++
      (" Share ".toList ++ S)))))))))) := by
  have hUD : noDigits U = true := noDigits_of_alpha hUalpha
  have hfol : noOcc followTok (T ++ ([u] ++ (" More ".toList ++ (B ++
      (" Like ".toList ++ (L ++ (" Reply ".toList ++ (R ++
      (" Repost ".toList ++ (P ++ (" Share ".toList ++ S))))))))))) := by
    refine noOcc_append (noPreMatch_digits2 (by decide) (by decide) hT _) ?_
    refine noOcc_append (noPreMatch_unit2 hu (by decide) (by decide)
      (by decide) (by decide) (by decide) _) ?_
    refine noOcc_append (noPreMatch_of_preDead (by decide) _) ?_
    refine noOcc_append (noPreMatch_of_cross hBfollow
      (crossDead_concrete (by decide) (by decide) _)) ?_
    refine noOcc_append (noPreMatch_of_preDead (by decide) _) ?_
    exact noOcc_counterTail (by decide) (by decide) (by decide) (by decide)
      (by decide) hL hR hP hS
  have huser : noOcc U (T ++ ([u] ++ (" More ".toList ++ (B ++
      (" Like ".toList ++ (L ++ (" Reply ".toList ++ (R ++
      (" Repost ".toList ++ (P ++ (" Share ".toList ++ S))))))))))) := by
    refine noOcc_append (noPreMatch_digits2 hUD hU0 hT _) ?_
    refine noOcc_append
      (noPreMatch_user_unit hU0 hUalpha hne1 hne2 hne3 hne4 hu _) ?_
    have hshape2 : (" More ".toList ++ (B ++ (" Like ".toList ++ (L ++
        (" Reply ".toList ++ (R ++ (" Repost ".toList ++ (P ++
        (" Share ".toList ++ S))))))))) =
        (" More ".toList ++ (B ++ " Like ".toList)) ++ (L ++
        (" Reply ".toList ++ (R ++ (" Repost ".toList ++ (P ++
        (" Share ".toList ++ S)))))) := by
      simp only [List.append_assoc]
    rw [hshape2]
    refine noOcc_append (noPreMatch_of_cross hUmblk ?_) ?_
    · intro k hk0 hk
      exact crossDead_digit_head hUD hL hL0 _ k hk
    refine noOcc_append (noPreMatch_digits2 hUD hU0 hL _) ?_
    refine noOcc_append (noPreMatch_of_cross hURY ?_) ?_
    · intro k hk0 hk
      exact crossDead_digit_head hUD hR hR0 _ k hk
    refine noOcc_append (noPreMatch_digits2 hUD hU0 hR _) ?_
    refine noOcc_append (noPreMatch_of_cross hURP ?_) ?_
    · intro k hk0 hk
      exact crossDead_digit_head hUD hP hP0 _ k hk
    refine noOcc_append (noPreMatch_digits2 hUD hU0 hP _) ?_
    refine noOcc_append (noPreMatch_of_cross hUSH ?_) ?_
    · intro k hk0 hk
      have hx := crossDead_digit_head hUD hS hS0 [] k hk
      rwa [List.append_nil] at hx
    exact noOcc_digits2 hUD hU0 hS
  have hm : mFollowUser U ((U ++ [' ']) ++ (T ++ ([u] ++
      (" More ".toList ++ (B ++ (" Like ".toList ++ (L ++
      (" Reply ".toList ++ (R ++ (" Repost ".toList ++ (P ++
      (" Share ".toList ++ S)))))))))))) =
      some (T ++ ([u] ++ (" More ".toList ++ (B ++ (" Like ".toList ++
      (L ++ (" Reply ".toList ++ (R ++ (" Repost ".toList ++ (P ++
      (" Share ".toList ++ S)))))))))))  := by
    have hf : stripCI followTok ((U ++ [' ']) ++ (T ++ ([u] ++
        (" More ".toList ++ (B ++ (" Like ".toList ++ (L ++
        (" Reply ".toList ++ (R ++ (" Repost ".toList ++ (P ++
        (" Share ".toList ++ S)))))))))))) = none := by
      have hx := @noPreMatch_of_cross followTok (U ++ [' '])
        (T ++ ([u] ++ (" More ".toList ++ (B ++ (" Like ".toList ++ (L ++
          (" Reply ".toList ++ (R ++ (" Repost ".toList ++ (P ++
          (" Share ".toList ++ S)))))))))))
        hUfollow
        (fun k hk0 hk => crossDead_digit_head (by decide) hT hT0 _ k hk)
        0 (by simp)
      rwa [List.drop_zero] at hx
    rw [mFollowUser, hf]
    show (stripCI U ((U ++ [' ']) ++ _)).map (fun r => r.dropWhile isSpc) = _
    rw [List.append_assoc, stripCI_self hUlc]
    show some (([' '] ++ _).dropWhile isSpc) = _
    have hdw := dropWhile_spc_digits hT hT0 ([u] ++ (" More ".toList ++
      (B ++ (" Like ".toList ++ (L ++ (" Reply ".toList ++ (R ++
      (" Repost ".toList ++ (P ++ (" Share ".toList ++ S))))))))))
    exact congrArg some hdw
  have hsplit := @scanS_split (mFollowUser U) [] (U ++ [' '])
    (T ++ ([u] ++ (" More ".toList ++ (B ++ (" Like ".toList ++ (L ++
      (" Reply ".toList ++ (R ++ (" Repost ".toList ++ (P ++
      (" Share ".toList ++ S)))))))))))
    (fun p hp => absurd hp (by simp))
    hm (by simp) (fun p => mFollowUser_none (hfol p) (huser p))
  simpa using hsplit

theorem crossDead_concrete2 {tok g : List Char}
    (hcd : crossDeadB2 tok g = true) (z : List Char) :
    ∀ k, 0 < k → k < tok.length → stripCI (tok.drop k) (g ++ z) = none := by
  intro k hk0 hk
  have hmem := List.all_eq_true.mp hcd k (List.mem_range.mpr hk)
  simp only [Bool.or_eq_true, decide_eq_true_eq] at hmem
  rcases hmem with h | h
  · omega
  by_cases hlen : tok.length - k ≤ g.length
  · rw [if_pos hlen] at h
    have hnone : stripCI (tok.drop k) g = none := by
      cases hcase : stripCI (tok.drop k) g with
      | none => rfl
      | some r => rw [hcase] at h; exact Bool.noConfusion h
    rw [stripCI_append_left z (by rw [List.length_drop]; omega), hnone]
    rfl
  · rw [if_neg hlen] at h
    have hne : stripCI ((tok.drop k).take g.length) g ≠ some [] := by
      simpa using h
    cases hres : stripCI (tok.drop k) (g ++ z) with
    | none => rfl
    | some r =>
      exfalso
      have hgl : g.length < (tok.drop k).length := by
        rw [List.length_drop]
        omega
      obtain ⟨hmap, -⟩ := stripCI_append_split hres hgl
      apply hne
      rw [stripCI_eq_some_iff]
      have hlt : ((tok.drop k).take g.length).length = g.length := by
        rw [List.length_take]
        omega
      refine ⟨le_of_eq hlt, ?_, ?_⟩
      · rw [hlt, List.take_length]
        exact hmap
      · rw [hlt, List.drop_length]

theorem noPreMatch_aSp {tok T B : List Char} {u : Char} {spRest : List Char}
    (htokA : tok.all Char.isAlpha = true) (htokD : noDigits tok = true)
    (htok0 : tok ≠ [])
    (hT : T.all isDig = true) (hu : unitOK u = true)
    (hM : preDeadB tok " More ".toList = true)
    (hB : noOcc tok B)
    (hSp : preDeadB tok (' ' :: spRest) = true)
    (hh2 : tok.headD ' ' ≠ 'h') (hh3 : tok.headD ' ' ≠ 'd')
    (hh4 : tok.headD ' ' ≠ 'w') (hh5 : tok.headD ' ' ≠ 'm')
    (z : List Char) :
    noPreMatch tok (T ++ ([u] ++ (" More ".toList ++ (B ++
      (' ' :: spRest))))) z := by
  refine noPreMatch_append (noPreMatch_digits2 htokD htok0 hT _) ?_
  refine noPreMatch_append (noPreMatch_unit2 hu htok0 hh2 hh3 hh4 hh5 _) ?_
  refine noPreMatch_append (noPreMatch_of_preDead hM _) ?_
  refine noPreMatch_append (noPreMatch_of_cross hB ?_)
    (noPreMatch_of_preDead hSp _)
  intro k hk0 hk
  exact crossDead_spc htokA _ k hk

theorem pass4_translate {T B L R P S : List Char} {u : Char}
    (hT : T.all isDig = true) (hT0 : T ≠ []) (hu : unitOK u = true)
    (hB : noOcc translateTok B)
    (hL : L.all isDig = true) (hR : R.all isDig = true)
    (hP : P.all isDig = true) (hS : S.all isDig = true) :
    scanS (mTokSp translateTok) (T ++ ([u] ++ (" More ".toList ++ (B ++
      (" Like ".toList ++ (L ++ (" Reply ".toList ++ (R ++
      (" Repost ".toList ++ (P ++ (" Share ".toList ++ S))))))))))) =
    T ++ ([u] ++ (" More ".toList ++ (B ++ (" Like ".toList ++ (L ++
      (" Reply ".toList ++ (R ++ (" Repost ".toList ++ (P ++
      (" Share ".toList ++ S)))))))))) := by
  have hno : noOcc translateTok (T ++ ([u] ++ (" More ".toList ++ (B ++
      (" Like ".toList ++ (L ++ (" Reply ".toList ++ (R ++
      (" Repost ".toList ++ (P ++ (" Share ".toList ++ S))))))))))) := by
    refine noOcc_append (noPreMatch_digits2 (by decide) (by decide) hT _) ?_
    refine noOcc_append (noPreMatch_unit2 hu (by decide) (by decide)
      (by decide) (by decide) (by decide) _) ?_
    refine noOcc_append (noPreMatch_of_preDead (by decide) _) ?_
    refine noOcc_append (noPreMatch_of_cross hB
      (crossDead_concrete2 (by decide) _)) ?_
    refine noOcc_append (noPreMatch_of_preDead (by decide) _) ?_
    exact noOcc_counterTail (by decide) (by decide) (by decide) (by decide)
      (by decide) hL hR hP hS
  exact scanS_id fun p => mTokSp_none (hno p)

theorem pass5_like {T B L R P S : List Char} {u : Char}
    (hT : T.all isDig = true) (hT0 : T ≠ []) (hu : unitOK u = true)
    (hB : noOcc likeTok B)
    (hL : L.all isDig = true) (hL0 : L ≠ [])
    (hR : R.all isDig = true) (hP : P.all isDig = true)
    (hS : S.all isDig = true) :
    scanS (mTokSpDig likeTok) (T ++ ([u] ++ (" More ".toList ++ (B ++
      (" Like ".toList ++ (L ++ (" Reply ".toList ++ (R ++
      (" Repost ".toList ++ (P ++ (" Share ".toList ++ S))))))))))) =
    T ++ ([u] ++ (" More ".toList ++ (B ++ ([' '] ++ (" Reply ".toList ++
      (R ++ (" Repost ".toList ++ (P ++ (" Share ".toList ++ S))))))))) := by
  have hshape : T ++ ([u] ++ (" More ".toList ++ (B ++ (" Like ".toList ++
      (L ++ (" Reply ".toList ++ (R ++ (" Repost ".toList ++ (P ++
      (" Share ".toList ++ S))))))))))
      = (T ++ ([u] ++ (" More ".toList ++ (B ++ [' '])))) ++
        (("Like ".toList ++ L) ++ (" Reply ".toList ++ (R ++
        (" Repost ".toList ++ (P ++ (" Share ".toList ++ S)))))) := by
    rw [show (" Like ".toList : List Char) = [' '] ++ "Like ".toList from
      by decide]
    simp only [List.append_assoc]
  rw [hshape]
  rw [scanS_split ?hA ?hm ?hm0 ?hb]
  case hA =>
    intro p hp
    exact mTokSpDig_none (noPreMatch_aSp (by decide) (by decide) (by decide)
      hT hu (by decide) hB (by decide) (by decide) (by decide) (by decide)
      (by decide) _ p hp)
  case hm =>
    rw [List.append_assoc, mTokSpDig, stripCI_append_left _ (by decide),
      show stripCI likeTok "Like ".toList = some [' '] from by decide]
    show some (((' ' :: (L ++ (" Reply ".toList ++ (R ++
      (" Repost ".toList ++ (P ++ (" Share ".toList ++
      S))))))).dropWhile isSpc).dropWhile isDig) = _
    rw [dropWhile_spc_digits hL hL0, dropWhile_append_of_all _ hL]
    show some (((' ' :: ("Reply ".toList ++ (R ++ (" Repost ".toList ++
      (P ++ (" Share ".toList ++ S)))))).dropWhile isDig)) = _
    rw [dropWhile_cons_of_neg (by decide)]
    rfl
  case hm0 =>
    exact fun h => List.noConfusion h
  case hb =>
    have hno : noOcc likeTok (" Reply ".toList ++ (R ++
        (" Repost ".toList ++ (P ++ (" Share ".toList ++ S))))) := by
      refine noOcc_append (noPreMatch_of_preDead (by decide) _) ?_
      refine noOcc_append (noPreMatch_digits2 (by decide) (by decide) hR _) ?_
      refine noOcc_append (noPreMatch_of_preDead (by decide) _) ?_
      refine noOcc_append (noPreMatch_digits2 (by decide) (by decide) hP _) ?_
      refine noOcc_append (noPreMatch_of_preDead (by decide) _) ?_
      exact noOcc_digits2 (by decide) (by decide) hS
    exact fun p => mTokSpDig_none (hno p)
  simp only [List.append_assoc]

theorem pass6_reply {T B R P S : List Char} {u : Char}
    (hT : T.all isDig = true) (hT0 : T ≠ []) (hu : unitOK u = true)
    (hB : noOcc replyTok B)
    (hR : R.all isDig = true) (hR0 : R ≠ [])
    (hP : P.all isDig = true) (hS : S.all isDig = true) :
    scanS (mTokSpDig replyTok) (T ++ ([u] ++ (" More ".toList ++ (B ++
      ([' '] ++ (" Reply ".toList ++ (R ++ (" Repost ".toList ++ (P ++
      (" Share ".toList ++ S)))))))))) =
    T ++ ([u] ++ (" More ".toList ++ (B ++ ([' ', ' '] ++
      (" Repost ".toList ++ (P ++ (" Share ".toList ++ S))))))) := by
  have hshape : T ++ ([u] ++ (" More ".toList ++ (B ++ ([' '] ++
      (" Reply ".toList ++ (R ++ (" Repost ".toList ++ (P ++
      (" Share ".toList ++ S))))))))) =
      (T ++ ([u] ++ (" More ".toList ++ (B ++ (' ' :: [' ']))))) ++
        (("Reply ".toList ++ R) ++ (" Repost ".toList ++ (P ++
        (" Share ".toList ++ S)))) := by
    rw [show (" Reply ".toList : List Char) = [' '] ++ "Reply ".toList from
      by decide]
    simp only [List.append_assoc, List.singleton_append, List.cons_append, List.nil_append]
  rw [hshape]
  rw [scanS_split ?hA ?hm ?hm0 ?hb]
  case hA =>
    intro p hp
    exact mTokSpDig_none (noPreMatch_aSp (by decide) (by decide) (by decide)
      hT hu (by decide) hB (by decide) (by decide) (by decide) (by decide)
      (by decide) _ p hp)
  case hm =>
    rw [List.append_assoc, mTokSpDig, stripCI_append_left _ (by decide),
      show stripCI replyTok "Reply ".toList = some [' '] from by decide]
    show some (((' ' :: (R ++ (" Repost ".toList ++ (P ++
      (" Share ".toList ++ S))))).dropWhile isSpc).dropWhile isDig) = _
    rw [dropWhile_spc_digits hR hR0, dropWhile_append_of_all _ hR]
    show some (((' ' :: ("Repost ".toList ++ (P ++ (" Share ".toList ++
      S)))).dropWhile isDig)) = _
    rw [dropWhile_cons_of_neg (by decide)]
    rfl
  case hm0 =>
    exact fun h => List.noConfusion h
  case hb =>
    have hno : noOcc replyTok (" Repost ".toList ++ (P ++
        (" Share ".toList ++ S))) := by
      refine noOcc_append (noPreMatch_of_preDead (by decide) _) ?_
      refine noOcc_append (noPreMatch_digits2 (by decide) (by decide) hP _) ?_
      refine noOcc_append (noPreMatch_of_preDead (by decide) _) ?_
      exact noOcc_digits2 (by decide) (by decide) hS
    exact fun p => mTokSpDig_none (hno p)
  simp only [List.append_assoc, List.singleton_append, List.cons_append, List.nil_append]

theorem pass7_repost {T B P S : List Char} {u : Char}
    (hT : T.all isDig = true) (hT0 : T ≠ []) (hu : unitOK u = true)
    (hB : noOcc repostTok B)
    (hP : P.all isDig = true) (hP0 : P ≠ [])
    (hS : S.all isDig = true) :
    scanS (mTokSpDig repostTok) (T ++ ([u] ++ (" More ".toList ++ (B ++
      ([' ', ' '] ++ (" Repost ".toList ++ (P ++ (" Share ".toList ++
      S)))))))) =
    T ++ ([u] ++ (" More ".toList ++ (B ++ ([' ', ' ', ' '] ++
      (" Share ".toList ++ S))))) := by
  have hshape : T ++ ([u] ++ (" More ".toList ++ (B ++ ([' ', ' '] ++
      (" Repost ".toList ++ (P ++ (" Share ".toList ++ S))))))) =
      (T ++ ([u] ++ (" More ".toList ++ (B ++ (' ' :: [' ', ' ']))))) ++
        (("Repost ".toList ++ P) ++ (" Share ".toList ++ S)) := by
    rw [show (" Repost ".toList : List Char) = [' '] ++ "Repost ".toList from
      by decide]
    simp only [List.append_assoc, List.singleton_append, List.cons_append, List.nil_append]
  rw [hshape]
  rw [scanS_split ?hA ?hm ?hm0 ?hb]
  case hA =>
    intro p hp
    exact mTokSpDig_none (noPreMatch_aSp (by decide) (by decide) (by decide)
      hT hu (by decide) hB (by decide) (by decide) (by decide) (by decide)
      (by decide) _ p hp)
  case hm =>
    rw [List.append_assoc, mTokSpDig, stripCI_append_left _ (by decide),
      show stripCI repostTok "Repost ".toList = some [' '] from by decide]
    show some (((' ' :: (P ++ (" Share ".toList ++ S))).dropWhile
      isSpc).dropWhile isDig) = _
    rw [dropWhile_spc_digits hP hP0, dropWhile_append_of_all _ hP]
    show some (((' ' :: ("Share ".toList ++ S)).dropWhile isDig)) = _
    rw [dropWhile_cons_of_neg (by decide)]
    rfl
  case hm0 =>
    exact fun h => List.noConfusion h
  case hb =>
    have hno : noOcc repostTok (" Share ".toList ++ S) := by
      refine noOcc_append (noPreMatch_of_preDead (by decide) _) ?_
      exact noOcc_digits2 (by decide) (by decide) hS
    exact fun p => mTokSpDig_none (hno p)
  simp only [List.append_assoc, List.singleton_append, List.cons_append, List.nil_append]

theorem dropWhile_all_nil {p : Char → Bool} {x : List Char}
    (h : x.all p = true) : x.dropWhile p = [] := by
  induction x with
  | nil => rfl
  | cons c cs ih =>
    rw [List.all_cons, Bool.and_eq_true] at h
    rw [List.dropWhile_cons, if_pos h.1]
    exact ih h.2

theorem pass8_share {T B S : List Char} {u : Char}
    (hT : T.all isDig = true) (hT0 : T ≠ []) (hu : unitOK u = true)
    (hB : noOcc shareTok B)
    (hS : S.all isDig = true) (hS0 : S ≠ []) :
    scanS (mTokSpDig shareTok) (T ++ ([u] ++ (" More ".toList ++ (B ++
      ([' ', ' ', ' '] ++ (" Share ".toList ++ S)))))) =
    T ++ ([u] ++ (" More ".toList ++ (B ++ [' ', ' ', ' ', ' ']))) := by
  have hshape : T ++ ([u] ++ (" More ".toList ++ (B ++ ([' ', ' ', ' '] ++
      (" Share ".toList ++ S))))) =
      (T ++ ([u] ++ (" More ".toList ++ (B ++ (' ' :: [' ', ' ', ' ']))))) ++
        (("Share ".toList ++ S) ++ []) := by
    rw [show (" Share ".toList : List Char) = [' '] ++ "Share ".toList from
      by decide]
    simp only [List.append_assoc, List.singleton_append, List.cons_append,
      List.nil_append, List.append_nil]
  rw [hshape]
  rw [scanS_split ?hA ?hm ?hm0 ?hb]
  case hA =>
    intro p hp
    exact mTokSpDig_none (noPreMatch_aSp (by decide) (by decide) (by decide)
      hT hu (by decide) hB (by decide) (by decide) (by decide) (by decide)
      (by decide) _ p hp)
  case hm =>
    rw [List.append_nil, mTokSpDig, stripCI_append_left _ (by decide),
      show stripCI shareTok "Share ".toList = some [' '] from by decide]
    show some (((' ' :: S).dropWhile isSpc).dropWhile isDig) = some []
    have hsd : (' ' :: S).dropWhile isSpc = S := by
      cases S with
      | nil => exact absurd rfl hS0
      | cons s0 S2 =>
        have hS2 := hS
        rw [List.all_cons, Bool.and_eq_true] at hS2
        rw [List.dropWhile_cons, if_pos (by decide)]
        exact dropWhile_cons_of_neg (isDig_not_spc hS2.1)
    rw [hsd, dropWhile_all_nil hS]
  case hm0 =>
    exact fun h => List.noConfusion h
  case hb =>
    intro p
    rw [List.drop_nil]
    exact mTokSpDig_none (by decide)
  simp only [List.append_assoc, List.singleton_append, List.cons_append,
    List.nil_append, List.append_nil]

theorem pass9_comment {T B : List Char} {u : Char}
    (hT : T.all isDig = true) (hT0 : T ≠ []) (hu : unitOK u = true)
    (hB : noOcc commentTok B) :
    scanS (mTokSpDig commentTok) (T ++ ([u] ++ (" More ".toList ++ (B ++
      [' ', ' ', ' ', ' '])))) =
    T ++ ([u] ++ (" More ".toList ++ (B ++ [' ', ' ', ' ', ' ']))) := by
  have hno : noOcc commentTok (T ++ ([u] ++ (" More ".toList ++ (B ++
      [' ', ' ', ' ', ' '])))) := by
    refine noOcc_append (noPreMatch_digits2 (by decide) (by decide) hT _) ?_
    refine noOcc_append (noPreMatch_unit2 hu (by decide) (by decide)
      (by decide) (by decide) (by decide) _) ?_
    refine noOcc_append (noPreMatch_of_preDead (by decide) _) ?_
    refine noOcc_append (noPreMatch_of_cross hB ?_) ?_
    · intro k hk0 hk
      exact crossDead_spc (by decide) _ k hk
    · exact noOcc_of_occursCI (by decide) (by decide)
  exact scanS_id fun p => mTokSpDig_none (hno p)

theorem pass10_audio {T B : List Char} {u : Char}
    (hT : T.all isDig = true) (hT0 : T ≠ []) (hu : unitOK u = true)
    (hB : noOcc audioTok B) :
    scanS (mTokSp audioTok) (T ++ ([u] ++ (" More ".toList ++ (B ++
      [' ', ' ', ' ', ' '])))) =
    T ++ ([u] ++ (" More ".toList ++ (B ++ [' ', ' ', ' ', ' ']))) := by
  have hno : noOcc audioTok (T ++ ([u] ++ (" More ".toList ++ (B ++
      [' ', ' ', ' ', ' '])))) := by
    refine noOcc_append (noPreMatch_digits2 (by decide) (by decide) hT _) ?_
    refine noOcc_append (noPreMatch_unit2 hu (by decide) (by decide)
      (by decide) (by decide) (by decide) _) ?_
    refine noOcc_append (noPreMatch_of_preDead (by decide) _) ?_
    refine noOcc_append (noPreMatch_of_cross hB ?_) ?_
    · intro k hk0 hk
      have hx := @crossDead_concrete2 audioTok [' ', ' ', ' ', ' ']
        (by decide) [] k hk0 hk
      rwa [List.append_nil] at hx
    · exact noOcc_of_occursCI (by decide) (by decide)
  exact scanS_id fun p => mTokSp_none (hno p)

theorem dropWhile_spc_append_self {B : List Char} (hB0 : B ≠ [])
    (hBd : B.dropWhile isSpc = B) (z : List Char) :
    (B ++ z).dropWhile isSpc = B ++ z := by
  cases B with
  | nil => exact absurd rfl hB0
  | cons c B2 =>
    have hc : isSpc c = false := by
      cases hcs : isSpc c with
      | false => rfl
      | true =>
        rw [List.dropWhile_cons, if_pos hcs] at hBd
        have := congrArg List.length hBd
        have hlen : (List.dropWhile isSpc B2).length ≤ B2.length :=
          (List.dropWhile_sublist _).length_le
        rw [List.length_cons] at this
        omega
    rw [List.cons_append]
    exact dropWhile_cons_of_neg hc

theorem pass11_reltime {T B : List Char} {u : Char}
    (hT : T.all isDig = true) (hT1 : 1 ≤ T.length) (hT3 : T.length ≤ 3)
    (hu : unitOK u = true) (hBa : B.all alphaSpace = true)
    (hB0 : B ≠ []) (hBd : B.dropWhile isSpc = B) :
    scanS mRelTime (T ++ ([u] ++ (" More ".toList ++ (B ++
      [' ', ' ', ' ', ' '])))) = B ++ [' ', ' ', ' ', ' '] := by
  have hBnd : noDigits (B ++ [' ', ' ', ' ', ' ']) = true :=
    noDigits_append (noDigits_of_alphaSpace hBa) (by decide)
  have hm : mRelTime ((T ++ ([u] ++ " More ".toList)) ++ (B ++
      [' ', ' ', ' ', ' '])) = some (B ++ [' ', ' ', ' ', ' ']) := by
    rw [show (T ++ ([u] ++ " More ".toList)) ++ (B ++ [' ', ' ', ' ', ' '])
      = T ++ (u :: (" More ".toList ++ (B ++ [' ', ' ', ' ', ' '])))
      from by simp only [List.append_assoc, List.singleton_append,
        List.cons_append, List.nil_append]]
    unfold mRelTime
    rw [takeWhile_append_of_all_neg _ hT (unit_not_dig hu)]
    rw [if_pos ⟨hT1, hT3⟩]
    rw [List.drop_left]
    simp only []
    rw [show hdwm.contains (lc u) = true from hu]
    rw [if_pos rfl]
    rw [show (" More ".toList ++ (B ++ [' ', ' ', ' ', ' '])).dropWhile isSpc
      = "More ".toList ++ (B ++ [' ', ' ', ' ', ' ']) from by
        rw [show (" More ".toList : List Char) = ' ' :: "More ".toList from
          by decide, List.cons_append]
        rw [List.dropWhile_cons, if_pos (by decide)]
        exact dropWhile_cons_of_neg (by decide)]
    rw [show stripCI editedTok ("More ".toList ++ (B ++ [' ', ' ', ' ', ' ']))
      = none from by
        rw [show ("More ".toList : List Char) = 'M' :: "ore ".toList from
          by decide, List.cons_append]
        show stripCI editedTok ('M' :: _) = none
        simp only [stripCI, editedTok]
        rw [if_neg (by decide)]]
    rw [stripCI_append_left _ (by decide),
      show stripCI moreTok "More ".toList = some [' '] from by decide]
    show some (((' ' :: []) ++ (B ++ [' ', ' ', ' ', ' '])).dropWhile isSpc)
      = _
    rw [show ((' ' :: []) : List Char) ++ (B ++ [' ', ' ', ' ', ' '])
      = ' ' :: (B ++ [' ', ' ', ' ', ' ']) from rfl]
    rw [List.dropWhile_cons, if_pos (by decide)]
    rw [dropWhile_spc_append_self hB0 hBd]
  have hsplit := @scanS_split mRelTime [] (T ++ ([u] ++ " More ".toList))
    (B ++ [' ', ' ', ' ', ' '])
    (fun p hp => absurd hp (by simp))
    hm
    (by
      cases T with
      | nil => simp at hT1
      | cons t0 T2 => exact fun h => List.noConfusion h)
    (fun p => mRelTime_none_noDigits (noDigits_drop hBnd p))
  rw [List.nil_append] at hsplit
  rw [show T ++ ([u] ++ (" More ".toList ++ (B ++ [' ', ' ', ' ', ' '])))
    = (T ++ ([u] ++ " More ".toList)) ++ (B ++ [' ', ' ', ' ', ' '])
    from by simp only [List.append_assoc]]
  exact hsplit

theorem dropWhile_head_false {p : Char → Bool} {l : List Char} {c : Char}
    {rest : List Char} (h : l.dropWhile p = c :: rest) : p c = false := by
  induction l with
  | nil => exact List.noConfusion h
  | cons a l2 ih =>
    rw [List.dropWhile_cons] at h
    by_cases ha : p a = true
    · rw [if_pos ha] at h
      exact ih h
    · rw [if_neg ha] at h
      injection h with h1 h2
      subst h1
      cases hpa : p a with
      | false => rfl
      | true => exact absurd hpa ha

theorem pass12_edited {B : List Char} (hB : noOcc editedTok B) :
    scanS mEditedMore (B ++ [' ', ' ', ' ', ' ']) =
      B ++ [' ', ' ', ' ', ' '] := by
  have hno : noOcc editedTok (B ++ [' ', ' ', ' ', ' ']) := by
    refine noOcc_append (noPreMatch_of_cross hB ?_) ?_
    · intro k hk0 hk
      exact crossDead_spc (by decide) _ k hk
    · exact noOcc_of_occursCI (by decide) (by decide)
  exact scanS_id fun p => mEditedMore_none (hno p)

theorem pass13_more {B : List Char} (hB : noOcc moreTok B) :
    subLeadingMore (B ++ [' ', ' ', ' ', ' ']) =
      B ++ [' ', ' ', ' ', ' '] := by
  have hno : noOcc moreTok (B ++ [' ', ' ', ' ', ' ']) := by
    refine noOcc_append (noPreMatch_of_cross hB ?_) ?_
    · intro k hk0 hk
      exact crossDead_spc (by decide) _ k hk
    · exact noOcc_of_occursCI (by decide) (by decide)
  have h0 := hno 0
  rw [List.drop_zero] at h0
  unfold subLeadingMore
  rw [h0]

theorem pass14_verified {B : List Char} (hB : noOcc verifiedTok B) :
    scanS (mTokSp verifiedTok) (B ++ [' ', ' ', ' ', ' ']) =
      B ++ [' ', ' ', ' ', ' '] := by
  have hno : noOcc verifiedTok (B ++ [' ', ' ', ' ', ' ']) := by
    refine noOcc_append (noPreMatch_of_cross hB ?_) ?_
    · intro k hk0 hk
      exact crossDead_spc (by decide) _ k hk
    · exact noOcc_of_occursCI (by decide) (by decide)
  exact scanS_id fun p => mTokSp_none (hno p)

theorem pass15_follow {B : List Char} (hB : noOcc followTok B) :
    scanS (mTokSp followTok) (B ++ [' ', ' ', ' ', ' ']) =
      B ++ [' ', ' ', ' ', ' '] := by
  have hno : noOcc followTok (B ++ [' ', ' ', ' ', ' ']) := by
    refine noOcc_append (noPreMatch_of_cross hB ?_) ?_
    · intro k hk0 hk
      exact crossDead_spc (by decide) _ k hk
    · exact noOcc_of_occursCI (by decide) (by decide)
  exact scanS_id fun p => mTokSp_none (hno p)

theorem pass16_slash {B : List Char} (hBa : B.all alphaSpace = true) :
    scanP mPartSlash isDig false (B ++ [' ', ' ', ' ', ' ']) =
      B ++ [' ', ' ', ' ', ' '] := by
  have hnd : noDigits (B ++ [' ', ' ', ' ', ' ']) = true :=
    noDigits_append (noDigits_of_alphaSpace hBa) (by decide)
  exact scanP_id
    (fun v p => mPartSlash_none_noDigits v (noDigits_drop hnd p)) false

theorem pass17_word {B : List Char} (hBa : B.all alphaSpace = true) :
    scanP mPartWord isWordChar false (B ++ [' ', ' ', ' ', ' ']) =
      B ++ [' ', ' ', ' ', ' '] := by
  have hnd : noDigits (B ++ [' ', ' ', ' ', ' ']) = true :=
    noDigits_append (noDigits_of_alphaSpace hBa) (by decide)
  exact scanP_id
    (fun v p => mPartWord_none_noDigits v (noDigits_drop hnd p)) false

theorem pass18_paren {B : List Char} (hBa : B.all alphaSpace = true) :
    subTrailingParen (B ++ [' ', ' ', ' ', ' ']) =
      B ++ [' ', ' ', ' ', ' '] := by
  unfold subTrailingParen
  have hrev : (B ++ [' ', ' ', ' ', ' ']).reverse.dropWhile isSpc =
      B.reverse.dropWhile isSpc := by
    rw [List.reverse_append]
    rw [show ([' ', ' ', ' ', ' '] : List Char).reverse =
      [' ', ' ', ' ', ' '] from by decide]
    exact dropWhile_append_of_all _ (by decide)
  rw [hrev]
  cases hd : B.reverse.dropWhile isSpc with
  | nil => rfl
  | cons c rest =>
    have hcB : c ∈ B := by
      have h1 : c ∈ B.reverse.dropWhile isSpc :=
        hd ▸ List.mem_cons_self c rest
      have h2 : c ∈ B.reverse := (List.dropWhile_sublist _).subset h1
      exact List.mem_reverse.mp h2
    have hcs : isSpc c = false := dropWhile_head_false hd
    have hca : c.isAlpha = true := by
      have hx := List.all_eq_true.mp hBa c hcB
      rw [alphaSpace, Bool.or_eq_true] at hx
      rcases hx with hx | hx
      · exact hx
      · rw [decide_eq_true_eq] at hx
        subst hx
        exact absurd hcs (by decide)
    have hcne : c ≠ ')' := Ne.symm (ne_of_pred hca (by decide))
    dsimp only
    split
    · rename_i r2 heq
      injection heq with heq1 heq2
      exact absurd heq1 hcne
    · rfl

theorem noOcc_nil {tok : List Char} (h : tok ≠ []) : noOcc tok [] := by
  intro p
  rw [List.drop_nil]
  cases tok with
  | nil => exact absurd rfl h
  | cons t ts => rfl

theorem map_lc_self {U : List Char}
    (h : U.all (fun c => c.isAlpha && lc c = c) = true) : U.map lc = U := by
  induction U with
  | nil => rfl
  | cons c cs ih =>
    rw [List.all_cons, Bool.and_eq_true] at h
    obtain ⟨h1, h2⟩ := h
    rw [Bool.and_eq_true, decide_eq_true_eq] at h1
    rw [List.map_cons, h1.2, ih h2]

theorem all_alpha_of_lcfixed {U : List Char}
    (h : U.all (fun c => c.isAlpha && lc c = c) = true) :
    U.all Char.isAlpha = true := by
  rw [List.all_eq_true] at h ⊢
  intro c hc
  have := h c hc
  rw [Bool.and_eq_true] at this
  exact this.1

theorem tsOK_unpack {ts : List Char} (h : tsOK ts = true) :
    ts.all isDig = true ∧ 1 ≤ ts.length ∧ ts.length ≤ 3 ∧ ts ≠ [] := by
  rw [tsOK, Bool.and_eq_true, Bool.and_eq_true] at h
  obtain ⟨⟨h1, h2⟩, h3⟩ := h
  rw [decide_eq_true_eq] at h1 h2
  refine ⟨h3, h1, h2, ?_⟩
  intro he
  subst he
  simp at h1

theorem digitRun_unpack {d : List Char} (h : digitRun d = true) :
    d.all isDig = true ∧ d ≠ [] := by
  rw [digitRun, Bool.and_eq_true] at h
  obtain ⟨h1, h2⟩ := h
  rw [decide_eq_true_eq] at h1
  exact ⟨h2, h1⟩

theorem pass11_reltime_empty {T : List Char} {u : Char}
    (hT : T.all isDig = true) (hT1 : 1 ≤ T.length) (hT3 : T.length ≤ 3)
    (hu : unitOK u = true) :
    scanS mRelTime (T ++ ([u] ++ (" More ".toList ++ ([] ++
      [' ', ' ', ' ', ' '])))) = [] := by
  have hm : mRelTime ((T ++ ([u] ++ (" More ".toList ++
      [' ', ' ', ' ', ' ']))) ++ []) = some [] := by
    rw [List.append_nil]
    rw [show T ++ ([u] ++ (" More ".toList ++ [' ', ' ', ' ', ' ']))
      = T ++ (u :: (" More ".toList ++ [' ', ' ', ' ', ' '])) from by
        simp only [List.append_assoc, List.singleton_append]]
    unfold mRelTime
    rw [takeWhile_append_of_all_neg _ hT (unit_not_dig hu)]
    rw [if_pos ⟨hT1, hT3⟩]
    rw [List.drop_left]
    simp only []
    rw [show hdwm.contains (lc u) = true from hu]
    rw [if_pos rfl]
    decide
  have hsplit := @scanS_split mRelTime []
    (T ++ ([u] ++ (" More ".toList ++ [' ', ' ', ' ', ' ']))) []
    (fun p hp => absurd hp (by simp)) hm
    (by
      cases T with
      | nil => simp at hT1
      | cons t0 T2 => exact fun h => List.noConfusion h)
    (fun p => by rw [List.drop_nil]; decide)
  rw [List.nil_append] at hsplit
  simp only [List.nil_append]
  rw [show (T ++ ([u] ++ (" More ".toList ++ [' ', ' ', ' ', ' ']))) ++ []
    = T ++ ([u] ++ (" More ".toList ++ [' ', ' ', ' ', ' '])) from
    List.append_nil _] at hsplit
  exact hsplit

theorem cleanThreadsPost_render (user body : String) (ts : List Char)
    (u : Char) (L R P S : List Char)
    (hok : c2ok user.toList body.toList)
    (hts : tsOK ts = true) (hu : unitOK u = true)
    (hL : digitRun L = true) (hR : digitRun R = true)
    (hP : digitRun P = true) (hS : digitRun S = true) :
    cleanThreadsPost (renderThreads user ts u body L R P S) user =
      String.mk (stripEnds (collapseWs (body.toList ++
        [' ', ' ', ' ', ' ']))) := by
  obtain ⟨⟨hU0, hUlcA, hBa, hBd⟩, ⟨hUau, hUtr, hUfo⟩, hBtoks, hUoccs⟩ := hok
  obtain ⟨hBau, hBtr, hBfo, hBli, hBre, hBrp, hBsh, hBco, hBed, hBmo, hBve⟩
    := hBtoks
  obtain ⟨hUmb, hURY, hURP, hUSH, hne1, hne2, hne3, hne4⟩ := hUoccs
  obtain ⟨hTd, hT1, hT3, hT0⟩ := tsOK_unpack hts
  obtain ⟨hLd, hL0⟩ := digitRun_unpack hL
  obtain ⟨hRd, hR0⟩ := digitRun_unpack hR
  obtain ⟨hPd, hP0⟩ := digitRun_unpack hP
  obtain ⟨hSd, hS0⟩ := digitRun_unpack hS
  have hUlc : user.toList.map lc = user.toList := map_lc_self hUlcA
  have hUal : user.toList.all Char.isAlpha = true := all_alpha_of_lcfixed hUlcA
  have nU1 : noOcc audioTok (user.toList ++ [' ']) :=
    noOcc_of_occursCI (by decide) hUau
  have nU2 : noOcc translateTok (user.toList ++ [' ']) :=
    noOcc_of_occursCI (by decide) hUtr
  have nU3 : noOcc followTok (user.toList ++ [' ']) :=
    noOcc_of_occursCI (by decide) hUfo
  have nB1 : noOcc audioTok body.toList := noOcc_of_occursCI (by decide) hBau
  have nB2 : noOcc translateTok body.toList :=
    noOcc_of_occursCI (by decide) hBtr
  have nB3 : noOcc followTok body.toList := noOcc_of_occursCI (by decide) hBfo
  have nBli : noOcc likeTok body.toList := noOcc_of_occursCI (by decide) hBli
  have nBre : noOcc replyTok body.toList := noOcc_of_occursCI (by decide) hBre
  have nBrp : noOcc repostTok body.toList :=
    noOcc_of_occursCI (by decide) hBrp
  have nBsh : noOcc shareTok body.toList := noOcc_of_occursCI (by decide) hBsh
  have nBco : noOcc commentTok body.toList :=
    noOcc_of_occursCI (by decide) hBco
  have nBed : noOcc editedTok body.toList := noOcc_of_occursCI (by decide) hBed
  have nBmo : noOcc moreTok body.toList := noOcc_of_occursCI (by decide) hBmo
  have nBve : noOcc verifiedTok body.toList :=
    noOcc_of_occursCI (by decide) hBve
  have nUmb : noOcc user.toList (" More ".toList ++ (body.toList ++
      " Like ".toList)) := by
    have h := noOcc_of_occursCI hU0 hUmb
    rwa [List.append_assoc] at h
  have nURY : noOcc user.toList " Reply ".toList := noOcc_of_occursCI hU0 hURY
  have nURP : noOcc user.toList " Repost ".toList :=
    noOcc_of_occursCI hU0 hURP
  have nUSH : noOcc user.toList " Share ".toList := noOcc_of_occursCI hU0 hUSH
  have hrender : (renderThreads user ts u body L R P S).toList =
      (user.toList ++ [' ']) ++ (ts ++ ([u] ++ (" More ".toList ++
        (body.toList ++ (" Translate Like ".toList ++ (L ++
        (" Reply ".toList ++ (R ++ (" Repost ".toList ++ (P ++
        (" Share ".toList ++ S))))))))))) := by
    simp only [renderThreads, String.toList, String.data_append,
      List.append_assoc]
  simp only [cleanThreadsPost]
  rw [hrender, hUlc]
  rw [pass1_audio nU1 hTd hT0 hu nB1 hLd hRd hPd hSd]
  rw [pass2_translate nU2 hTd hT0 hu nB2 hLd hRd hPd hSd]
  rw [pass3_user hU0 hUlc hUal hne1 hne2 hne3 hne4 nU3 nB3 nUmb nURY nURP
    nUSH hTd hT0 hu hLd hL0 hRd hR0 hPd hP0 hSd hS0]
  rw [pass4_translate hTd hT0 hu nB2 hLd hRd hPd hSd]
  rw [pass5_like hTd hT0 hu nBli hLd hL0 hRd hPd hSd]
  rw [pass6_reply hTd hT0 hu nBre hRd hR0 hPd hSd]
  rw [pass7_repost hTd hT0 hu nBrp hPd hP0 hSd]
  rw [pass8_share hTd hT0 hu nBsh hSd hS0]
  rw [pass9_comment hTd hT0 hu nBco]
  rw [pass10_audio hTd hT0 hu nB1]
  by_cases hBnil : body.toList = []
  · rw [hBnil]
    rw [pass11_reltime_empty hTd hT1 hT3 hu]
    decide
  · rw [pass11_reltime hTd hT1 hT3 hu hBa hBnil hBd]
    rw [pass12_edited nBed]
    rw [pass13_more nBmo]
    rw [pass14_verified nBve]
    rw [pass15_follow nB3]
    rw [pass16_slash hBa]
    rw [pass17_word hBa]
    rw [pass18_paren hBa]

/-- C2 (amended): fingerprint invariance of `_clean_threads_post` — for
every username and body satisfying the `c2ok` side conditions (the
username does not collide, case-insensitively, with the UI chrome
literals the normalizer strips, the body contains none of them, both
are within the modeled character classes), two raw renderings of the
same post that differ only in the inline relative timestamp and the
four engagement-counter values produce identical canonical text and
hence identical fingerprints under every hash function. -/
theorem c2_fingerprint_invariance (hashFn : String → String)
    (user body : String) (ts1 ts2 : List Char) (u1 u2 : Char)
    (L1 R1 P1 S1 L2 R2 P2 S2 : List Char)
    (hok : c2ok user.toList body.toList)
    (hts1 : tsOK ts1 = true) (hu1 : unitOK u1 = true)
    (hL1 : digitRun L1 = true) (hR1 : digitRun R1 = true)
    (hP1 : digitRun P1 = true) (hS1 : digitRun S1 = true)
    (hts2 : tsOK ts2 = true) (hu2 : unitOK u2 = true)
    (hL2 : digitRun L2 = true) (hR2 : digitRun R2 = true)
    (hP2 : digitRun P2 = true) (hS2 : digitRun S2 = true) :
    cleanThreadsPost (renderThreads user ts1 u1 body L1 R1 P1 S1) user =
      cleanThreadsPost (renderThreads user ts2 u2 body L2 R2 P2 S2) user ∧
    fingerprintOf hashFn
        (cleanThreadsPost (renderThreads user ts1 u1 body L1 R1 P1 S1)
          user) =
      fingerprintOf hashFn
        (cleanThreadsPost (renderThreads user ts2 u2 body L2 R2 P2 S2)
          user) := by
  have h1 := cleanThreadsPost_render user body ts1 u1 L1 R1 P1 S1 hok hts1
    hu1 hL1 hR1 hP1 hS1
  have h2 := cleanThreadsPost_render user body ts2 u2 L2 R2 P2 S2 hok hts2
    hu2 hL2 hR2 hP2 hS2
  have heq := h1.trans h2.symm
  exact ⟨heq, congrArg hashFn heq⟩

/-- C2 (counterexample): two raw Threads renderings that differ only in
the reply counter (username `re`) normalize to different canonical
texts: the username-removal pass runs before the counter passes and
corrupts the `Reply` chrome token (`" Reply 3"` becomes `" ply 3"`), so
the counter value survives into the canonical text and the fingerprints
differ. -/
theorem c2_counterexample :
    cleanThreadsPost
        (renderThreads "re" ['5'] 'h' "xyz" ['1'] ['3'] ['1'] ['0']) "re" ≠
      cleanThreadsPost
        (renderThreads "re" ['5'] 'h' "xyz" ['1'] ['7'] ['1'] ['0']) "re" :=
  by decide

/-- Witness: the C2 theorem applied to a concrete rendering pair
(`traderjoe`, body `NVDA breakout soon`, timestamps `5h` vs `21d`,
different counters), hypotheses discharged by `decide`. -/
theorem c2_fingerprint_invariance_witness :
    c2ok "traderjoe".toList "NVDA breakout soon".toList ∧
    tsOK ['5'] = true ∧ unitOK 'h' = true ∧ digitRun ['1', '2'] = true ∧
    cleanThreadsPost (renderThreads "traderjoe" ['5'] 'h'
        "NVDA breakout soon" ['1', '2'] ['3'] ['4'] ['5']) "traderjoe" =
      cleanThreadsPost (renderThreads "traderjoe" ['2', '1'] 'd'
        "NVDA breakout soon" ['9'] ['8'] ['7'] ['6']) "traderjoe" :=
  ⟨by decide, by decide, by decide, by decide,
    (c2_fingerprint_invariance (fun s => s) "traderjoe" "NVDA breakout soon"
      ['5'] ['2', '1'] 'h' 'd' ['1', '2'] ['3'] ['4'] ['5'] ['9'] ['8']
      ['7'] ['6'] (by decide) (by decide) (by decide) (by decide) (by decide)
      (by decide) (by decide) (by decide) (by decide) (by decide) (by decide)
      (by decide) (by decide)).1⟩

end StockPL
